import Mathlib

/-!
Verification of the manifest validation engine of cgp_seq_input_val
(cgp_seq_input_val/manifest.py), shallowly embedded in Lean 4.

A manifest file is modelled at the level of its parsed rows: the tsv/csv
reading layer of the Python standard library turns the file into a list of
rows, each row a list of string cells, and every function of manifest.py
consumes or produces such rows.  Python dictionaries are modelled as
association lists with first-match lookup and replace-in-place insertion,
matching the insertion-order semantics of dict.  Python exceptions are
modelled by an explicit error type threaded through Except: the three
error classes of the package (ConfigError, ParsingError, ValidationError)
each get a wrapper constructor, and the builtin KeyError / IndexError /
AttributeError / ValueError that the code can also raise get their own
constructors, so that the kinds stay distinguishable.
-/

set_option autoImplicit false

namespace CgpSeqVal

/-- Modelled from the spec: the fixed header/body separator token
(constants.HEADER_BODY_SWITCH; the constants module is not part of the
shown source).  The development only relies on it being a fixed string
distinct from the reserved header keys, which holds for any sensible
choice of the constant. -/
def HEADER_BODY_SWITCH : String := "Files:"

/-- Structured content of a ConfigError raise site (manifest.py,
Header.validate_json). -/
inductive ConfigErr where
  | missingSection (name : String) (cfgType cfgVersion : String)
  deriving DecidableEq

/-- Structured content of a ParsingError raise site (manifest.py,
Header.get_config). -/
inductive ParsingErr where
  | typeMismatch (cfgFile declared : String)
  | versionMismatch (cfgFile declared : String)
  deriving DecidableEq

/-- Structured content of every ValidationError raise site of manifest.py.
Each constructor carries the data interpolated into the corresponding
message string of the source. -/
inductive ValidationErr where
  | unexpectedFields (fields : List String)
  | missingFields (fields : List String)
  | headerNoValue (item : String)
  | headerInvalidValue (item value : String)
  | headingMismatch (expected actual : List String)
  | requiredAbsent (item : String) (line : Nat)
  | invalidValue (item value : String) (line : Nat)
  | duplicateFile (item value : String) (line : Nat)
  | invalidFileExt (fullExt item : String) (line : Nat)
  | mismatchedFileExt (lastExt fullExt : String) (line : Nat)
  deriving DecidableEq

/-- Every way a manifest.py run can terminate abnormally: the three error
classes of the package plus the Python builtins the code can raise. -/
inductive MErr where
  | config (e : ConfigErr)
  | parsing (e : ParsingErr)
  | validation (e : ValidationErr)
  | keyError (key : String)
  | indexError
  | attrError (name : String)
  | valueError (msg : String)
  deriving DecidableEq

/-- Does the error belong to the ConfigError class? -/
def MErr.isConfig : MErr → Bool
  | .config _ => true
  | _ => false

/-- Does the error belong to the ParsingError class? -/
def MErr.isParsing : MErr → Bool
  | .parsing _ => true
  | _ => false

/-- Does the error belong to the ValidationError class? -/
def MErr.isValidation : MErr → Bool
  | .validation _ => true
  | _ => false

/-- First-match lookup in an association list: the value a Python dict
subscript returns when the key is present (keys are unique in a dict, so
first match is the match). -/
def alookup {α : Type} : List (String × α) → String → Option α
  | [], _ => none
  | (k, v) :: rest, key => if k = key then some v else alookup rest key

/-- Python dict assignment d[key] = val: replace the value in place when
the key is present (keeping its position), append otherwise. -/
def dictInsert {α : Type} : List (String × α) → String → α → List (String × α)
  | [], key, val => [(key, val)]
  | (k, v) :: rest, key, val =>
    if k = key then (k, val) :: rest else (k, v) :: dictInsert rest key val

/-- Python dict subscript d[key]: the value when present, KeyError
otherwise. -/
def getKey {α : Type} (d : List (String × α)) (key : String) : Except MErr α :=
  match alookup d key with
  | some v => .ok v
  | none => .error (.keyError key)

/-- Python dict subscript on a document field modelled as Option. -/
def getOptKey {α : Type} (o : Option α) (key : String) : Except MErr α :=
  match o with
  | some v => .ok v
  | none => .error (.keyError key)

/-- The two reserved header keys excluded from the validated item set
(manifest.py, Header.fields_exist). -/
def reservedKeys : List String := ["Form type:", "Form version:"]

/-- The json document a Rule Config file parses to, before any structural
check: every section may be absent (Header.validate_json checks presence). -/
structure HeaderDoc where
  expected : Option (List String)
  required : Option (List String)
  validate : Option (List (String × List String))
  deriving DecidableEq

/-- The body section of a Rule Config document; validate_json never looks
inside it, so all fields may be absent. -/
structure BodyDoc where
  ordered : Option (List String)
  required : Option (List String)
  validate : Option (List (String × List String))
  validate_ext : Option (List (String × List String))
  deriving DecidableEq

/-- A loaded Rule Config document (the json.load result in
Header.get_config). -/
structure ConfigDoc where
  type : Option String
  version : Option String
  header : Option HeaderDoc
  body : Option BodyDoc
  deriving DecidableEq

/-- The header rules actually consumed by Header.validate, after
validate_json has established that all three sections exist. -/
structure HRules where
  expected : List String
  required : List String
  validate : List (String × List String)
  deriving DecidableEq

/-- The body rules consumed by Body, config['body'] of a loaded Rule
Config. -/
structure BRules where
  ordered : List String
  required : List String
  validate : List (String × List String)
  validate_ext : List (String × List String)
  deriving DecidableEq

/-- The Header object of manifest.py: declared form type and version, the
raw parsed key/value pairs (_all_items) and the validated item dict
(items, empty until fields_exist has run). -/
structure Header where
  type : String
  version : String
  all_items : List (String × String)
  items : List (String × String)
  deriving DecidableEq

/-- The row loop of Header.__init__: collect (first cell, second cell or
empty) pairs until a row whose first cell is the header/body switch; an
empty row raises IndexError at row[0]. -/
def headerRowsLoop : List (List String) → List (String × String) →
    Except MErr (List (String × String))
  | [], acc => .ok acc
  | row :: rest, acc =>
    match row with
    | [] => .error .indexError
    | key :: tail =>
      if key = HEADER_BODY_SWITCH then .ok acc
      else headerRowsLoop rest (dictInsert acc key (tail.headD ""))

/-- Header.__init__: parse the key/value preamble, then read the two
reserved keys (a Python dict subscript, so a missing key is a KeyError). -/
def Header.init (rows : List (List String)) : Except MErr Header := do
  let items ← headerRowsLoop rows []
  let t ← getKey items "Form type:"
  let v ← getKey items "Form version:"
  return { type := t, version := v, all_items := items, items := [] }

/-- Header.write: one row per validated item, then the two reserved keys;
returns the rows and the value contributed to the json mirror
(self.items). -/
def Header.write (h : Header) : List (List String) × List (String × String) :=
  (h.items.map (fun p => [p.1, p.2]) ++
    [["Form type:", h.type], ["Form version:", h.version]], h.items)

/-- Header.validate_json: presence checks only — header, header.expected,
header.required, header.validate and body must exist in the document. -/
def Header.validate_json (ht hv : String) (config : ConfigDoc) : Except MErr Unit :=
  match config.header with
  | none => .error (.config (.missingSection "header" ht hv))
  | some hd =>
    if hd.expected = none then .error (.config (.missingSection "header.expected" ht hv))
    else if hd.required = none then .error (.config (.missingSection "header.required" ht hv))
    else if hd.validate = none then .error (.config (.missingSection "header.validate" ht hv))
    else if config.body = none then .error (.config (.missingSection "body" ht hv))
    else .ok ()

/-- The checks Header.get_config performs on a loaded config document (the
file read itself is the json library): declared type must match, then
declared version must match, then validate_json; the document is returned
unchanged. -/
def Header.get_config_checks (cfg_file ht hv : String) (config : ConfigDoc) :
    Except MErr ConfigDoc := do
  let ct ← getOptKey config.type "type"
  if ct ≠ ht then .error (.parsing (.typeMismatch cfg_file ct))
  else do
    let cv ← getOptKey config.version "version"
    if cv ≠ hv then .error (.parsing (.versionMismatch cfg_file cv))
    else do
      Header.validate_json ht hv config
      return config

/-- The present-but-unexpected field names of Header.fields_exist
(found.difference(expected), in found order). -/
def unexpectedOf (h : Header) (expected : List String) : List String :=
  (h.all_items.map Prod.fst).filter (fun k => decide (k ∉ expected))

/-- The expected-but-missing field names of Header.fields_exist
(expected.difference(found), in expected order). -/
def missingOf (h : Header) (expected : List String) : List String :=
  expected.filter (fun k => decide (k ∉ h.all_items.map Prod.fst))

/-- Header.fields_exist: raise on unexpected fields, else on missing
fields, else populate items with every parsed pair except the two
reserved keys. -/
def Header.fields_exist (h : Header) (expected : List String) : Except MErr Header :=
  if unexpectedOf h expected ≠ [] then
    .error (.validation (.unexpectedFields (unexpectedOf h expected)))
  else if missingOf h expected ≠ [] then
    .error (.validation (.missingFields (missingOf h expected)))
  else
    .ok { h with items := h.all_items.filter (fun p => decide (p.1 ∉ reservedKeys)) }

/-- Header.fields_have_values: every required field must have a non-empty
value (dict subscript, so an absent field is a KeyError). -/
def Header.fields_have_values (items : List (String × String)) :
    List String → Except MErr Unit
  | [] => .ok ()
  | req :: rest => do
    let v ← getKey items req
    if v = "" then .error (.validation (.headerNoValue req))
    else Header.fields_have_values items rest

/-- Header.field_values_valid: every restricted field must hold one of its
permitted values. -/
def Header.field_values_valid (items : List (String × String)) :
    List (String × List String) → Except MErr Unit
  | [] => .ok ()
  | (item, allowed) :: rest => do
    let v ← getKey items item
    if v ∉ allowed then .error (.validation (.headerInvalidValue item v))
    else Header.field_values_valid items rest

/-- Header.validate: fields_exist, fields_have_values, field_values_valid,
then backfill 'Our Ref:' with a fresh token when (and only when) its value
is the empty string.  The uuid4 call is nondeterministic, so the generated
token is passed as the argument fresh. -/
def Header.validate (h : Header) (rules : HRules) (fresh : String) :
    Except MErr Header := do
  let h1 ← Header.fields_exist h rules.expected
  Header.fields_have_values h1.items rules.required
  Header.field_values_valid h1.items rules.validate
  let ourRef ← getKey h1.items "Our Ref:"
  if ourRef = "" then return { h1 with items := dictInsert h1.items "Our Ref:" fresh }
  else return h1

/-- Modelled from the spec: a File Record (file_meta.FileMeta, not part of
the shown source) binds one body row to the body's heading names as an
attribute mapping from column name to cell value, as a dict built from the
zipped pairs would (a later duplicate heading overwrites an earlier one,
extra cells beyond the headings are ignored). -/
structure FileMeta where
  attributes : List (String × String)
  deriving DecidableEq

/-- Insert a list of pairs into a dict one by one (the dict(zip(...))
construction). -/
def insertAll (d : List (String × String)) : List (String × String) → List (String × String)
  | [] => d
  | p :: ps => insertAll (dictInsert d p.1 p.2) ps

/-- Build the attribute mapping of a File Record from headings and row. -/
def FileMeta.ofRow (headings row : List String) : FileMeta :=
  ⟨insertAll [] (headings.zip row)⟩

/-- The Body object of manifest.py: the line-number offset accumulated
over pre-sentinel rows, the captured heading row (absent when the file has
no sentinel row), and the parsed File Records. -/
structure Body where
  offset : Nat
  headings : Option (List String)
  file_detail : List FileMeta
  deriving DecidableEq

/-- Body.heading_check: the captured heading row must equal
config['ordered'] exactly. -/
def Body.heading_check (ordered headings : List String) : Except MErr Unit :=
  if headings ≠ ordered then .error (.validation (.headingMismatch ordered headings))
  else .ok ()

/-- The row loop of Body.__init__: rows before the sentinel increment the
offset, the sentinel row becomes the headings and is checked against
config['ordered'] at once, rows after it become File Records; an empty row
raises IndexError at row[0]. -/
def bodyRowsLoop (ordered : List String) : List (List String) → Nat →
    Option (List String) → List FileMeta →
    Except MErr (Nat × Option (List String) × List FileMeta)
  | [], offset, headings, details => .ok (offset, headings, details)
  | row :: rest, offset, headings, details =>
    match row with
    | [] => .error .indexError
    | key :: _ =>
      if key = HEADER_BODY_SWITCH then do
        Body.heading_check ordered row
        bodyRowsLoop ordered rest offset (some row) details
      else
        match headings with
        | none => bodyRowsLoop ordered rest (offset + 1) none details
        | some hs => bodyRowsLoop ordered rest offset (some hs)
            (details ++ [FileMeta.ofRow hs row])

/-- Body.__init__ over the parsed rows of the manifest. -/
def Body.init (rows : List (List String)) (config : BRules) : Except MErr Body := do
  let r ← bodyRowsLoop config.ordered rows 1 none []
  return { offset := r.1, headings := r.2.1, file_detail := r.2.2 }

/-- The required-field check of one record (inner loop of
Body.fields_have_values): a required value may be neither empty nor the
placeholder period. -/
def Body.rowRequired (fd : FileMeta) (cnt : Nat) : List String → Except MErr Unit
  | [] => .ok ()
  | req :: rest => do
    let v ← getKey fd.attributes req
    if v = "" ∨ v = "." then .error (.validation (.requiredAbsent req cnt))
    else Body.rowRequired fd cnt rest

/-- Body.fields_have_values: outer loop over records, counting lines. -/
def Body.fields_have_values (required : List String) :
    List FileMeta → Nat → Except MErr Unit
  | [], _ => .ok ()
  | fd :: rest, cnt => do
    Body.rowRequired fd (cnt + 1) required
    Body.fields_have_values required rest (cnt + 1)

/-- Inner loop of Body.field_values_valid: one restricted column over all
records, counting lines. -/
def Body.valuesValidFor (item : String) (allowed : List String) :
    List FileMeta → Nat → Except MErr Unit
  | [], _ => .ok ()
  | fd :: rest, cnt => do
    let v ← getKey fd.attributes item
    if v ∉ allowed then .error (.validation (.invalidValue item v (cnt + 1)))
    else Body.valuesValidFor item allowed rest (cnt + 1)

/-- Body.field_values_valid: outer loop over the restricted columns. -/
def Body.field_values_valid (records : List FileMeta) (offset : Nat) :
    List (String × List String) → Except MErr Unit
  | [] => .ok ()
  | (item, allowed) :: rest => do
    Body.valuesValidFor item allowed records offset
    Body.field_values_valid records offset rest

/-- The two file columns, in check order (manifest.py iterates the tuple
('File', 'File_2')). -/
def fileTypes : List String := ["File", "File_2"]

/-- Inner loop of Body.uniq_files: the file columns of one record against
the filenames seen so far; returns the extended seen list. -/
def Body.uniqInner (fd : FileMeta) (cnt : Nat) :
    List String → List String → Except MErr (List String)
  | [], seen => .ok seen
  | fty :: rest, seen => do
    let item ← getKey fd.attributes fty
    if item = "." then Body.uniqInner fd cnt rest seen
    else if item ∈ seen then .error (.validation (.duplicateFile fty item cnt))
    else Body.uniqInner fd cnt rest (seen ++ [item])

/-- Outer loop of Body.uniq_files over the records, counting lines. -/
def Body.uniqOuter : List FileMeta → Nat → List String → Except MErr Unit
  | [], _, _ => .ok ()
  | fd :: rest, cnt, seen => do
    let seen1 ← Body.uniqInner fd (cnt + 1) fileTypes seen
    Body.uniqOuter rest (cnt + 1) seen1

/-- Body.uniq_files: all File / File_2 values other than the period
placeholder must be unique across the whole manifest. -/
def Body.uniq_files (b : Body) : Except MErr Unit :=
  Body.uniqOuter b.file_detail b.offset []

/-- Index of the last occurrence of a character in a list. -/
def lastIndexOf (c : Char) : List Char → Option Nat
  | [] => none
  | x :: xs =>
    match lastIndexOf c xs with
    | some i => some (i + 1)
    | none => if x = c then some 0 else none

/-- posixpath.splitext on the characters of a path: split at the last dot,
unless every character between the start of the basename and that dot is
itself a dot (leading dots of a basename never begin an extension). -/
def splitextList (l : List Char) : List Char × List Char :=
  let start : Nat :=
    match lastIndexOf '/' l with
    | none => 0
    | some s => s + 1
  match lastIndexOf '.' l with
  | none => (l, [])
  | some d =>
    if start ≤ d ∧ ((l.drop start).take (d - start)).any (fun ch => ch ≠ '.')
    then (l.take d, l.drop d)
    else (l, [])

/-- os.path.splitext on strings. -/
def splitext (p : String) : String × String :=
  let r := splitextList p.toList
  (String.mk r.1, String.mk r.2)

/-- The resolved extension of Body.file_ext_check: split one trailing .gz
off before taking the extension and reassemble. -/
def full_ext (item : String) : String :=
  let r := splitext item
  if r.2 = ".gz" then (splitext r.1).2 ++ ".gz"
  else r.2

/-- Inner loop of Body.file_ext_check: the file columns of one record,
threading the previous resolved extension of the same row. -/
def Body.extCheckRow (rules : List (String × List String)) (fd : FileMeta)
    (cnt : Nat) : List String → Option String → Except MErr Unit
  | [], _ => .ok ()
  | fty :: rest, lastExt => do
    let item ← getKey fd.attributes fty
    if item = "." then Body.extCheckRow rules fd cnt rest lastExt
    else do
      let allowed ← getKey rules fty
      if full_ext item ∉ allowed then
        .error (.validation (.invalidFileExt (full_ext item) fty cnt))
      else
        match lastExt with
        | some le =>
          if le ≠ full_ext item then
            .error (.validation (.mismatchedFileExt le (full_ext item) cnt))
          else Body.extCheckRow rules fd cnt rest (some (full_ext item))
        | none => Body.extCheckRow rules fd cnt rest (some (full_ext item))

/-- Body.file_ext_check: outer loop over the records, counting lines. -/
def Body.file_ext_check (rules : List (String × List String)) :
    List FileMeta → Nat → Except MErr Unit
  | [], _ => .ok ()
  | fd :: rest, cnt => do
    Body.extCheckRow rules fd (cnt + 1) fileTypes none
    Body.file_ext_check rules rest (cnt + 1)

/-- Body.validate: required values, then enumerated values, then
uniqueness, then extensions. -/
def Body.validate (b : Body) (rules : BRules) : Except MErr Unit := do
  Body.fields_have_values rules.required b.file_detail b.offset
  Body.field_values_valid b.file_detail b.offset rules.validate
  Body.uniq_files b
  Body.file_ext_check rules.validate_ext b.file_detail b.offset

/-- One written body row: the record's attribute values in the config's
ordered column order (dict subscripts, so a column the record lacks is a
KeyError). -/
def Body.rowFor (fd : FileMeta) : List String → Except MErr (List String)
  | [] => .ok []
  | col :: rest => do
    let v ← getKey fd.attributes col
    let r ← Body.rowFor fd rest
    return v :: r

/-- The record loop of Body.write: one ordered row per record. -/
def Body.writeRows (ordered : List String) : List FileMeta → Except MErr (List (List String))
  | [] => .ok []
  | fd :: rest => do
    let r ← Body.rowFor fd ordered
    let rs ← Body.writeRows ordered rest
    return r :: rs

/-- Body.write: the ordered heading row followed by one row per record;
returns the rows and the value contributed to the json mirror (the list of
attribute mappings). -/
def Body.write (b : Body) (config : BRules) :
    Except MErr (List (List String) × List (List (String × String))) := do
  let rows ← Body.writeRows config.ordered b.file_detail
  return (config.ordered :: rows, b.file_detail.map FileMeta.attributes)

/-- The json mirror emitted next to the canonical tsv: the header item
mapping and the ordered record list. -/
structure JsonOut where
  header : List (String × String)
  body : List (List (String × String))
  deriving DecidableEq

/-- Manifest.write: the tsv file is named after items['Our Ref:'] (a dict
subscript), holds the header rows followed by the body rows, and the json
mirror holds what the two write calls returned. -/
def Manifest.write (h : Header) (b : Body) (config : BRules) :
    Except MErr (String × List (List String) × JsonOut) := do
  let ourRef ← getKey h.items "Our Ref:"
  let hw := Header.write h
  let bw ← Body.write b config
  return (ourRef, hw.1 ++ bw.1, { header := hw.2, body := bw.2 })

/-- Does the joined line start with a tab?  This is the
joined.startswith('\t') test of Manifest._csv_to_tsv. -/
def startsTab (s : String) : Bool :=
  match s.toList with
  | [] => false
  | c :: _ => decide (c = '\t')

/-- Manifest._csv_to_tsv over the parsed csv rows: join each row with
tabs and print it unless the joined line starts with a tab. -/
def Manifest.csv_to_tsv : List (List String) → List String
  | [] => []
  | row :: rest =>
    if startsTab (String.intercalate "\t" row) then Manifest.csv_to_tsv rest
    else String.intercalate "\t" row :: Manifest.csv_to_tsv rest

/-- Manifest._excel_to_tsv over the stringified sheet rows: skip rows that
are empty or whose first cell is empty, join the rest with tabs. -/
def Manifest.excel_to_tsv : List (List String) → List String
  | [] => []
  | row :: rest =>
    match row with
    | [] => Manifest.excel_to_tsv rest
    | c0 :: _ =>
      if c0 = "" then Manifest.excel_to_tsv rest
      else String.intercalate "\t" row :: Manifest.excel_to_tsv rest

/-- The getattr(self, '_' + informat + '_to_tsv') dispatch of
Manifest.convert_by_extn: the Manifest class owns _csv_to_tsv,
_xls_to_tsv, _xlsx_to_tsv and _excel_to_tsv, and nothing else matching
the pattern (in particular no _tsv_to_tsv). -/
def getConvertor (informat : String) : Option (List (List String) → List String) :=
  if informat = "csv" then some Manifest.csv_to_tsv
  else if informat = "xls" ∨ informat = "xlsx" ∨ informat = "excel" then
    some Manifest.excel_to_tsv
  else none

/-- Manifest.convert_by_extn over a filesystem modelled as a name-to-
content map: open(outfile, 'w') creates or truncates the output first,
then the convertor is looked up by extension — an unknown extension is an
AttributeError raised after the file already exists empty. -/
def Manifest.convert_by_extn (informat : String) (inputRows : List (List String))
    (fs : List (String × String)) (outfile : String) :
    List (String × String) × Except MErr Unit :=
  let fs1 := dictInsert fs outfile ""
  match getConvertor informat with
  | some conv =>
    (dictInsert fs1 outfile (String.intercalate "\n" (conv inputRows)), .ok ())
  | none => (fs1, .error (.attrError ("_" ++ informat ++ "_to_tsv")))

/-! ### Specification-side vocabulary

Predicates and observation functions used to state the properties; they
are separate from the embedded code above and are compared to it by the
theorems below. -/

/-- The value of a file column when the file is present: the attribute
value unless it is absent or the period placeholder. -/
def presentFile (fd : FileMeta) (fty : String) : Option String :=
  match alookup fd.attributes fty with
  | some v => if v = "." then none else some v
  | none => none

/-- The (column, value, line) occurrences contributed by one record for a
given list of file columns. -/
def rowOccsF (fd : FileMeta) (cnt : Nat) (ftys : List String) :
    List (String × String × Nat) :=
  ftys.filterMap (fun fty => (presentFile fd fty).map (fun v => (fty, v, cnt)))

/-- The (column, value, line) occurrences contributed by one record. -/
def rowOccs (fd : FileMeta) (cnt : Nat) : List (String × String × Nat) :=
  rowOccsF fd cnt fileTypes

/-- All file occurrences of a body, in scan order, with their 1-based
source line numbers. -/
def fileOccs : List FileMeta → Nat → List (String × String × Nat)
  | [], _ => []
  | fd :: rest, cnt => rowOccs fd (cnt + 1) ++ fileOccs rest (cnt + 1)

/-- The value component of an occurrence. -/
def occVal (x : String × String × Nat) : String := x.2.1

/-- The first occurrence whose value was already seen: the collision
Body.uniq_files reports, at the second occurrence of the duplicated
value. -/
def firstDup (seen : List String) : List (String × String × Nat) →
    Option (String × String × Nat)
  | [] => none
  | x :: rest => if occVal x ∈ seen then some x else firstDup (seen ++ [occVal x]) rest

/-- The extension discipline of one record: every present file's resolved
extension lies in its column's permitted set, and when both files are
present their resolved extensions agree. -/
def rowExtOK (rules : List (String × List String)) (fd : FileMeta) : Prop :=
  (∀ v, presentFile fd "File" = some v → full_ext v ∈ (alookup rules "File").getD [])
  ∧ (∀ v, presentFile fd "File_2" = some v → full_ext v ∈ (alookup rules "File_2").getD [])
  ∧ (∀ v1 v2, presentFile fd "File" = some v1 → presentFile fd "File_2" = some v2 →
      full_ext v1 = full_ext v2)

/-- The first column of the tab-joined rendering of a csv row: the text
before the first tab of the joined line. -/
def firstRenderedColumn (row : List String) : String :=
  String.mk ((String.intercalate "\t" row).toList.takeWhile (fun c => c ≠ '\t'))

/-- An association list whose values are determined by a function of the
key. -/
def Consistent (g : String → String) (d : List (String × String)) : Prop :=
  ∀ p ∈ d, p.2 = g p.1

/-! ### Concrete instances used by counterexamples and witnesses -/

/-- A Rule Config document that violates both subset invariants of the
validate_json docstring: header.validate key Y is not in header.required,
header.required entry X is not in header.expected (and likewise for the
body section against body.ordered). -/
def badCfg : ConfigDoc :=
  { type := some "IMPORT", version := some "1.0",
    header := some { expected := some ["Form type:", "Form version:"],
                     required := some ["X"],
                     validate := some [("Y", ["a"])] },
    body := some { ordered := some ["Files:"], required := some ["Z"],
                   validate := some [("W", ["b"])], validate_ext := some [] } }

/-- A minimal body rule set for concrete runs. -/
def cBR : BRules :=
  { ordered := ["Files:"], required := [], validate := [], validate_ext := [] }

/-- A parsed header whose 'Our Ref:' is empty, for the backfill witness. -/
def cH4 : Header :=
  { type := "IMPORT", version := "1.0",
    all_items := [("Form type:", "IMPORT"), ("Form version:", "1.0"),
      ("Our Ref:", ""), ("Extra", "x")],
    items := [] }

/-- Header rules matching cH4. -/
def cHR4 : HRules :=
  { expected := ["Form type:", "Form version:", "Our Ref:", "Extra"],
    required := ["Extra"], validate := [("Extra", ["x"])] }

/-- The validated form of cH4 with the fresh token tok filled in. -/
def cH4out : Header :=
  { type := "IMPORT", version := "1.0",
    all_items := [("Form type:", "IMPORT"), ("Form version:", "1.0"),
      ("Our Ref:", ""), ("Extra", "x")],
    items := [("Our Ref:", "tok"), ("Extra", "x")] }

/-- A header with one unexpected field (A) against an expected list with
one missing field (B). -/
def cxH : Header :=
  { type := "", version := "", all_items := [("A", "")], items := [] }

/-- A config document whose declared type and version both mismatch the
requested IMPORT / 1.0. -/
def cxCfg : ConfigDoc :=
  { type := some "OTHER", version := some "9.9",
    header := some { expected := some [], required := some [], validate := some [] },
    body := some { ordered := some [], required := some [], validate := some [],
                   validate_ext := some [] } }

/-- A header with one field C not in an empty expected list. -/
def cwH : Header :=
  { type := "", version := "", all_items := [("C", "1")], items := [] }

/-- A config document whose declared type mismatches the requested one. -/
def cwCfg : ConfigDoc :=
  { type := some "X", version := some "1.0",
    header := some { expected := some [], required := some [], validate := some [] },
    body := some { ordered := some [], required := some [], validate := some [],
                   validate_ext := some [] } }

/-- A body with one record in which File and File_2 carry the same
filename, starting after one pre-sentinel row (offset 2, so the record is
source line 3). -/
def cB6 : Body :=
  { offset := 2, headings := some ["Files:", "File", "File_2"],
    file_detail := [⟨[("Files:", "x"), ("File", "a.fq"), ("File_2", "a.fq")]⟩] }

/-- Extension rules for the C5 witness: both extensions individually
permitted for either column. -/
def cR5 : List (String × List String) :=
  [("File", [".bam", ".fq"]), ("File_2", [".bam", ".fq"])]

/-- One record pairing a .bam with a .fq file. -/
def cFD5 : FileMeta := ⟨[("File", "a.bam"), ("File_2", "b.fq")]⟩

/-- A manifest with no sentinel row at all: three header lines only. -/
def nsRows : List (List String) :=
  [["Form type:", "IMPORT"], ["Form version:", "1.0"], ["Our Ref:", "ref-1"]]

/-- Header rules matching nsRows. -/
def nsHR : HRules :=
  { expected := ["Form type:", "Form version:", "Our Ref:"],
    required := [], validate := [] }

/-- Body rules whose ordered headings do not start with the sentinel. -/
def nsBR : BRules :=
  { ordered := ["Sample"], required := [], validate := [], validate_ext := [] }

/-- The parsed header of nsRows. -/
def nsH0 : Header :=
  { type := "IMPORT", version := "1.0",
    all_items := [("Form type:", "IMPORT"), ("Form version:", "1.0"),
      ("Our Ref:", "ref-1")],
    items := [] }

/-- The validated header of nsRows (its identifier was already set). -/
def nsH1 : Header :=
  { type := "IMPORT", version := "1.0",
    all_items := [("Form type:", "IMPORT"), ("Form version:", "1.0"),
      ("Our Ref:", "ref-1")],
    items := [("Our Ref:", "ref-1")] }

/-- The parsed body of nsRows: no sentinel ever seen, no records. -/
def nsB0 : Body := { offset := 4, headings := none, file_detail := [] }

/-- What Manifest.write emits for the no-sentinel manifest. -/
def nsOut : List (List String) :=
  [["Our Ref:", "ref-1"], ["Form type:", "IMPORT"], ["Form version:", "1.0"],
   ["Sample"]]

/-- The json mirror written next to nsOut. -/
def nsJs : JsonOut := { header := [("Our Ref:", "ref-1")], body := [] }

/-- The header obtained by re-parsing nsOut: the body heading row Sample
is swallowed as a header item. -/
def nsReH : Header :=
  { type := "IMPORT", version := "1.0",
    all_items := [("Our Ref:", "ref-1"), ("Form type:", "IMPORT"),
      ("Form version:", "1.0"), ("Sample", "")],
    items := [] }

/-- A complete well-formed one-record manifest for the round-trip
witness. -/
def wRows : List (List String) :=
  [["Form type:", "IMPORT"], ["Form version:", "1.0"], ["Our Ref:", ""],
   ["Files:", "File", "File_2"], ["s1", "a.bam", "."]]

/-- Header rules matching wRows. -/
def wHR : HRules :=
  { expected := ["Form type:", "Form version:", "Our Ref:"],
    required := [], validate := [] }

/-- Body rules matching wRows: the sentinel leads the ordered columns. -/
def wBR : BRules :=
  { ordered := ["Files:", "File", "File_2"], required := [],
    validate := [], validate_ext := [("File", [".bam"]), ("File_2", [".bam"])] }

/-- The parsed header of wRows. -/
def wH0 : Header :=
  { type := "IMPORT", version := "1.0",
    all_items := [("Form type:", "IMPORT"), ("Form version:", "1.0"),
      ("Our Ref:", "")],
    items := [] }

/-- The validated header of wRows with the fresh token u-1 filled in. -/
def wH1 : Header :=
  { type := "IMPORT", version := "1.0",
    all_items := [("Form type:", "IMPORT"), ("Form version:", "1.0"),
      ("Our Ref:", "")],
    items := [("Our Ref:", "u-1")] }

/-- The parsed body of wRows. -/
def wB0 : Body :=
  { offset := 4, headings := some ["Files:", "File", "File_2"],
    file_detail := [⟨[("Files:", "s1"), ("File", "a.bam"), ("File_2", ".")]⟩] }

/-- The rows Manifest.write emits for the witness manifest. -/
def wOut : List (List String) :=
  [["Our Ref:", "u-1"], ["Form type:", "IMPORT"], ["Form version:", "1.0"],
   ["Files:", "File", "File_2"], ["s1", "a.bam", "."]]

/-- The json mirror written next to wOut. -/
def wJs : JsonOut :=
  { header := [("Our Ref:", "u-1")],
    body := [[("Files:", "s1"), ("File", "a.bam"), ("File_2", ".")]] }

/-! ### Dictionary lemmas -/

theorem alookup_eq_none {α : Type} (d : List (String × α)) (k : String) :
    alookup d k = none ↔ k ∉ d.map Prod.fst := by
  induction d with
  | nil => simp [alookup]
  | cons p rest ih =>
    obtain ⟨a, b⟩ := p
    by_cases h : a = k
    · subst h
      simp [alookup]
    · simp only [alookup, h, if_false, List.map_cons, List.mem_cons]
      rw [ih]
      constructor
      · intro hn hc
        rcases hc with hc | hc
        · exact h hc.symm
        · exact hn hc
      · intro hn hc
        exact hn (Or.inr hc)

theorem alookup_mem {α : Type} {d : List (String × α)} {k : String} {v : α}
    (h : alookup d k = some v) : (k, v) ∈ d := by
  induction d with
  | nil => simp [alookup] at h
  | cons p rest ih =>
    obtain ⟨a, b⟩ := p
    by_cases ha : a = k
    · subst ha
      simp [alookup] at h
      simp [h]
    · simp [alookup, ha] at h
      exact List.mem_cons_of_mem _ (ih h)

theorem alookup_append_of_none {α : Type} {a : List (String × α)} {k : String}
    (b : List (String × α)) (h : alookup a k = none) :
    alookup (a ++ b) k = alookup b k := by
  induction a with
  | nil => rfl
  | cons p rest ih =>
    obtain ⟨x, y⟩ := p
    by_cases hx : x = k
    · simp [alookup, hx] at h
    · simp only [alookup, hx, if_false, List.cons_append] at h ⊢
      exact ih h

theorem alookup_append_of_some {α : Type} {a : List (String × α)} {k : String} {v : α}
    (b : List (String × α)) (h : alookup a k = some v) :
    alookup (a ++ b) k = some v := by
  induction a with
  | nil => exact absurd h (by simp [alookup])
  | cons p rest ih =>
    obtain ⟨x, y⟩ := p
    by_cases hx : x = k
    · simp [alookup, hx] at h ⊢
      exact h
    · simp only [alookup, hx, if_false, List.cons_append] at h ⊢
      exact ih h

theorem keys_dictInsert {α : Type} (d : List (String × α)) (k : String) (v : α) :
    (dictInsert d k v).map Prod.fst =
      if k ∈ d.map Prod.fst then d.map Prod.fst else d.map Prod.fst ++ [k] := by
  induction d with
  | nil => simp [dictInsert]
  | cons p rest ih =>
    obtain ⟨a, b⟩ := p
    by_cases h : a = k
    · simp [dictInsert, h]
    · simp only [dictInsert, h, if_false, List.map_cons]
      rw [ih]
      by_cases hm : k ∈ rest.map Prod.fst <;>
        simp [hm, h, Ne.symm h]

theorem alookup_dictInsert_self {α : Type} (d : List (String × α)) (k : String) (v : α) :
    alookup (dictInsert d k v) k = some v := by
  induction d with
  | nil => simp [dictInsert, alookup]
  | cons p rest ih =>
    obtain ⟨a, b⟩ := p
    by_cases h : a = k <;> simp [dictInsert, alookup, h, ih]

theorem alookup_dictInsert_ne {α : Type} (d : List (String × α)) {k c : String} (v : α)
    (h : c ≠ k) : alookup (dictInsert d k v) c = alookup d c := by
  induction d with
  | nil => simp [dictInsert, alookup, Ne.symm h]
  | cons p rest ih =>
    obtain ⟨a, b⟩ := p
    by_cases ha : a = k
    · subst ha
      simp [dictInsert, alookup, Ne.symm h]
    · simp [dictInsert, alookup, ha, ih]

theorem mem_dictInsert {α : Type} {d : List (String × α)} {k : String} {v : α}
    {p : String × α} (h : p ∈ dictInsert d k v) : p ∈ d ∨ p = (k, v) := by
  induction d with
  | nil => simp [dictInsert] at h; simp [h]
  | cons q rest ih =>
    obtain ⟨a, b⟩ := q
    by_cases ha : a = k
    · subst ha
      simp [dictInsert] at h
      rcases h with h | h
      · right; simp [h]
      · left; simp [h]
    · simp only [dictInsert, ha, if_false, List.mem_cons] at h
      rcases h with h | h
      · left; simp [h]
      · rcases ih h with h2 | h2
        · left; exact List.mem_cons_of_mem _ h2
        · right; exact h2

theorem dictInsert_of_not_mem {α : Type} {d : List (String × α)} {k : String} (v : α)
    (h : k ∉ d.map Prod.fst) : dictInsert d k v = d ++ [(k, v)] := by
  induction d with
  | nil => simp [dictInsert]
  | cons p rest ih =>
    obtain ⟨a, b⟩ := p
    simp only [List.map_cons, List.mem_cons] at h
    push_neg at h
    simp [dictInsert, Ne.symm h.1, ih h.2]

theorem alookup_filter_key {α : Type} (d : List (String × α)) (q : String → Bool)
    (k : String) :
    alookup (d.filter (fun p => q p.1)) k = if q k then alookup d k else none := by
  induction d with
  | nil => simp [alookup]
  | cons p rest ih =>
    obtain ⟨a, b⟩ := p
    by_cases ha : a = k
    · subst ha
      by_cases hq : q a <;> simp [List.filter_cons, alookup, hq, ih]
    · by_cases hq : q a <;> simp [List.filter_cons, alookup, hq, ha, ih]

theorem alookup_dictInsert_isSome {α : Type} (d : List (String × α)) (k c : String)
    (v : α) :
    (alookup (dictInsert d k v) c).isSome = (c = k ∨ (alookup d c).isSome : Prop) := by
  by_cases h : c = k
  · subst h
    simp [alookup_dictInsert_self]
  · simp [alookup_dictInsert_ne d v h, h]

theorem insertAll_preserve {ps : List (String × String)} {k : String}
    (h : ∀ p ∈ ps, p.1 ≠ k) (d : List (String × String)) :
    alookup (insertAll d ps) k = alookup d k := by
  induction ps generalizing d with
  | nil => rfl
  | cons p rest ih =>
    have hp : p.1 ≠ k := h p (List.mem_cons_self p rest)
    have hr : ∀ q ∈ rest, q.1 ≠ k := fun q hq => h q (List.mem_cons_of_mem p hq)
    calc alookup (insertAll (dictInsert d p.1 p.2) rest) k
        = alookup (dictInsert d p.1 p.2) k := ih hr (dictInsert d p.1 p.2)
      _ = alookup d k := alookup_dictInsert_ne d p.2 (fun he => hp he.symm)

theorem dictInsert_consistent {g : String → String} {d : List (String × String)}
    {k v : String} (hd : Consistent g d) (hv : v = g k) :
    Consistent g (dictInsert d k v) := by
  intro p hp
  rcases mem_dictInsert hp with h | h
  · exact hd p h
  · subst h
    exact hv

theorem insertAll_consistent {g : String → String} {ps : List (String × String)}
    (hps : ∀ p ∈ ps, p.2 = g p.1) {d : List (String × String)} (hd : Consistent g d) :
    Consistent g (insertAll d ps) := by
  induction ps generalizing d with
  | nil => exact hd
  | cons p rest ih =>
    exact ih (fun q hq => hps q (List.mem_cons_of_mem p hq))
      (dictInsert_consistent hd (hps p (List.mem_cons_self p rest)))

theorem insertAll_isSome (ps : List (String × String)) (c : String)
    (d : List (String × String)) :
    (alookup (insertAll d ps) c).isSome =
      ((alookup d c).isSome ∨ c ∈ ps.map Prod.fst : Prop) := by
  induction ps generalizing d with
  | nil => simp [insertAll]
  | cons p rest ih =>
    simp only [insertAll, List.map_cons, List.mem_cons]
    rw [ih]
    rw [alookup_dictInsert_isSome]
    apply propext
    tauto

theorem consistent_lookup {g : String → String} {d : List (String × String)}
    {c v : String} (hd : Consistent g d) (h : alookup d c = some v) : v = g c :=
  hd (c, v) (alookup_mem h)

theorem zip_map_self (ks : List String) (g : String → String) :
    ks.zip (ks.map g) = ks.map (fun k => (k, g k)) := by
  induction ks with
  | nil => rfl
  | cons k rest ih => simp [ih]

/-- The attribute lookups a re-parsed written row yields: for a row whose
cells are given by g at each ordered column, every ordered column looks up
to its g value. -/
theorem ofRow_self_lookup (ordered : List String) (g : String → String)
    {c : String} (hc : c ∈ ordered) :
    alookup (FileMeta.ofRow ordered (ordered.map g)).attributes c = some (g c) := by
  unfold FileMeta.ofRow
  rw [zip_map_self]
  have hcons : Consistent g (insertAll [] (ordered.map (fun k => (k, g k)))) := by
    apply insertAll_consistent
    · intro p hp
      simp only [List.mem_map] at hp
      obtain ⟨k, _, hk⟩ := hp
      subst hk
      rfl
    · intro p hp
      simp at hp
  have hsome : (alookup (insertAll [] (ordered.map (fun k => (k, g k)))) c).isSome := by
    rw [insertAll_isSome]
    right
    simp only [List.map_map]
    simp only [List.mem_map]
    exact ⟨c, hc, rfl⟩
  obtain ⟨v, hv⟩ := Option.isSome_iff_exists.mp hsome
  rw [hv, consistent_lookup hcons hv]

/-- Success shape of the written-row builder: the row lists the getD
values of the columns in order, and every column is present. -/
theorem rowFor_ok {fd : FileMeta} {ks : List String} {r : List String}
    (h : Body.rowFor fd ks = .ok r) :
    r = ks.map (fun k => (alookup fd.attributes k).getD "") ∧
      ∀ k ∈ ks, (alookup fd.attributes k).isSome := by
  induction ks generalizing r with
  | nil =>
    simp only [Body.rowFor, pure, Except.pure] at h
    cases h
    simp
  | cons k rest ih =>
    simp only [Body.rowFor, bind, Except.bind, getKey] at h
    cases hv : alookup fd.attributes k with
    | none => rw [hv] at h; exact absurd h (by simp)
    | some v =>
      rw [hv] at h
      cases hr : Body.rowFor fd rest with
      | error e => rw [hr] at h; exact absurd h (by simp [pure, Except.pure])
      | ok rr =>
        rw [hr] at h
        simp only [pure, Except.pure, Except.ok.injEq] at h
        obtain ⟨h1, h2⟩ := ih hr
        subst h
        constructor
        · rw [h1]
          simp [hv]
        · intro c hc
          rcases List.mem_cons.mp hc with hc | hc
          · subst hc; simp [hv]
          · exact h2 c hc

/-- Success shape of the record loop of Body.write. -/
theorem writeRows_ok {ordered : List String} {fds : List FileMeta}
    {rows : List (List String)} (h : Body.writeRows ordered fds = .ok rows) :
    List.Forall₂ (fun fd r => Body.rowFor fd ordered = .ok r) fds rows := by
  induction fds generalizing rows with
  | nil =>
    simp only [Body.writeRows, pure, Except.pure] at h
    cases h
    exact List.Forall₂.nil
  | cons fd rest ih =>
    simp only [Body.writeRows, bind, Except.bind] at h
    cases hr : Body.rowFor fd ordered with
    | error e => rw [hr] at h; exact absurd h (by simp)
    | ok r =>
      rw [hr] at h
      cases hrs : Body.writeRows ordered rest with
      | error e => rw [hrs] at h; exact absurd h (by simp [pure, Except.pure])
      | ok rs =>
        rw [hrs] at h
        simp only [pure, Except.pure, Except.ok.injEq] at h
        cases h
        exact List.Forall₂.cons hr (ih hrs)

/-! ### Parse-loop lemmas -/

theorem headerRowsLoop_inv :
    ∀ (rows : List (List String)) (acc items : List (String × String)),
    headerRowsLoop rows acc = .ok items →
    (((acc.map Prod.fst).Nodup → (items.map Prod.fst).Nodup) ∧
      ((∀ k ∈ acc.map Prod.fst, k ≠ HEADER_BODY_SWITCH) →
        ∀ k ∈ items.map Prod.fst, k ≠ HEADER_BODY_SWITCH)) := by
  intro rows
  induction rows with
  | nil =>
    intro acc items h
    simp only [headerRowsLoop] at h
    cases h
    exact ⟨id, id⟩
  | cons row rest ih =>
    intro acc items h
    match row with
    | [] => exact absurd h (by simp [headerRowsLoop])
    | key :: tail =>
      by_cases hk : key = HEADER_BODY_SWITCH
      · simp only [headerRowsLoop, hk, if_true] at h
        cases h
        exact ⟨id, id⟩
      · simp only [headerRowsLoop, hk, if_false] at h
        obtain ⟨h1, h2⟩ := ih (dictInsert acc key (tail.headD "")) items h
        constructor
        · intro hnd
          apply h1
          rw [keys_dictInsert]
          by_cases hm : key ∈ acc.map Prod.fst
          · simp [hm, hnd]
          · simp [hm, List.nodup_append, hnd]
        · intro hsw
          apply h2
          intro k hkm
          rw [keys_dictInsert] at hkm
          by_cases hm : key ∈ acc.map Prod.fst
          · rw [if_pos hm] at hkm
            exact hsw k hkm
          · rw [if_neg hm] at hkm
            rcases List.mem_append.mp hkm with hkm | hkm
            · exact hsw k hkm
            · simp only [List.mem_singleton] at hkm
              subst hkm
              exact hk

theorem headerRowsLoop_pairs :
    ∀ (ps : List (String × String)) (rest : List (List String))
      (acc : List (String × String)),
    (((acc ++ ps).map Prod.fst).Nodup) →
    (∀ p ∈ ps, p.1 ≠ HEADER_BODY_SWITCH) →
    headerRowsLoop (ps.map (fun p => [p.1, p.2]) ++ rest) acc =
      headerRowsLoop rest (acc ++ ps) := by
  intro ps
  induction ps with
  | nil =>
    intro rest acc _ _
    simp
  | cons p ps' ih =>
    intro rest acc hnd hsw
    obtain ⟨a, b⟩ := p
    have ha : a ≠ HEADER_BODY_SWITCH := hsw (a, b) (List.mem_cons_self _ _)
    have hnotm : a ∉ acc.map Prod.fst := by
      intro hm
      have := (List.nodup_append.mp (by simpa using hnd)).2.2
      exact this hm (by simp)
    simp only [List.map_cons, List.cons_append, headerRowsLoop, ha, if_false,
      List.headD, List.append_eq]
    rw [dictInsert_of_not_mem _ hnotm]
    rw [ih rest (acc ++ [(a, b)])
      (by simpa using hnd)
      (fun q hq => hsw q (List.mem_cons_of_mem _ hq))]
    simp

theorem bodyRowsLoop_skip (ordered : List String) :
    ∀ (rs rest : List (List String)) (off : Nat) (d : List FileMeta),
    (∀ r ∈ rs, ∃ k t, r = k :: t ∧ k ≠ HEADER_BODY_SWITCH) →
    bodyRowsLoop ordered (rs ++ rest) off none d =
      bodyRowsLoop ordered rest (off + rs.length) none d := by
  intro rs
  induction rs with
  | nil =>
    intro rest off d _
    simp [bodyRowsLoop]
  | cons r rs' ih =>
    intro rest off d hr
    obtain ⟨k, t, hrt, hk⟩ := hr r (List.mem_cons_self r rs')
    subst hrt
    simp only [List.cons_append, bodyRowsLoop, hk, if_false, List.append_eq]
    rw [ih rest (off + 1) d (fun q hq => hr q (List.mem_cons_of_mem _ hq))]
    have heq : off + 1 + rs'.length = off + (rs'.length + 1) := by omega
    rw [heq]
    simp

theorem bodyRowsLoop_records (ordered hs : List String) :
    ∀ (rs : List (List String)) (off : Nat) (d : List FileMeta),
    (∀ r ∈ rs, ∃ k t, r = k :: t ∧ k ≠ HEADER_BODY_SWITCH) →
    bodyRowsLoop ordered rs off (some hs) d =
      .ok (off, some hs, d ++ rs.map (FileMeta.ofRow hs)) := by
  intro rs
  induction rs with
  | nil =>
    intro off d _
    simp [bodyRowsLoop]
  | cons r rs' ih =>
    intro off d hr
    obtain ⟨k, t, hrt, hk⟩ := hr r (List.mem_cons_self r rs')
    subst hrt
    simp only [bodyRowsLoop, hk, if_false]
    rw [ih off (d ++ [FileMeta.ofRow hs (k :: t)])
      (fun q hq => hr q (List.mem_cons_of_mem _ hq))]
    simp

theorem bodyRowsLoop_headings (ordered : List String) :
    ∀ (rows : List (List String)) (off : Nat) (hd : Option (List String))
      (d : List FileMeta) (o : Nat) (hd2 : Option (List String)) (d2 : List FileMeta),
    bodyRowsLoop ordered rows off hd d = .ok (o, hd2, d2) →
    hd2 = hd ∨ (hd2 = some ordered ∧ ∃ tl, ordered = HEADER_BODY_SWITCH :: tl) := by
  intro rows
  induction rows with
  | nil =>
    intro off hd d o hd2 d2 h
    simp only [bodyRowsLoop] at h
    cases h
    exact Or.inl rfl
  | cons row rest ih =>
    intro off hd d o hd2 d2 h
    match row with
    | [] => exact absurd h (by simp [bodyRowsLoop])
    | key :: t =>
      by_cases hk : key = HEADER_BODY_SWITCH
      · subst hk
        simp only [bodyRowsLoop, eq_self_iff_true, if_true, Body.heading_check] at h
        by_cases hro : HEADER_BODY_SWITCH :: t = ordered
        · rw [if_neg (not_not_intro hro)] at h
          simp only [bind, Except.bind] at h
          right
          refine ⟨?_, t, hro.symm⟩
          rcases ih _ _ _ _ _ _ h with h2 | h2
          · rw [h2, hro]
          · exact h2.1
        · rw [if_pos hro] at h
          simp [bind, Except.bind] at h
      · cases hd with
        | none =>
          simp only [bodyRowsLoop, hk, if_false] at h
          exact ih _ _ _ _ _ _ h
        | some hs =>
          simp only [bodyRowsLoop, hk, if_false] at h
          rcases ih _ _ _ _ _ _ h with h2 | h2
          · exact Or.inl h2
          · exact Or.inr h2

theorem bodyRowsLoop_attrs (ordered : List String)
    (hdup : HEADER_BODY_SWITCH ∉ ordered.drop 1) :
    ∀ (rows : List (List String)) (off : Nat) (hd : Option (List String))
      (d : List FileMeta) (o : Nat) (hd2 : Option (List String)) (d2 : List FileMeta),
    bodyRowsLoop ordered rows off hd d = .ok (o, hd2, d2) →
    (hd = none ∨ (hd = some ordered ∧ ∃ tl, ordered = HEADER_BODY_SWITCH :: tl)) →
    (∀ fd ∈ d, ∃ c, c ≠ HEADER_BODY_SWITCH ∧
      alookup fd.attributes HEADER_BODY_SWITCH = some c) →
    ∀ fd ∈ d2, ∃ c, c ≠ HEADER_BODY_SWITCH ∧
      alookup fd.attributes HEADER_BODY_SWITCH = some c := by
  intro rows
  induction rows with
  | nil =>
    intro off hd d o hd2 d2 h _ hdP
    simp only [bodyRowsLoop] at h
    cases h
    exact hdP
  | cons row rest ih =>
    intro off hd d o hd2 d2 h hinv hdP
    match row with
    | [] => exact absurd h (by simp [bodyRowsLoop])
    | key :: t =>
      by_cases hk : key = HEADER_BODY_SWITCH
      · subst hk
        simp only [bodyRowsLoop, eq_self_iff_true, if_true, Body.heading_check] at h
        by_cases hro : HEADER_BODY_SWITCH :: t = ordered
        · rw [if_neg (not_not_intro hro)] at h
          simp only [bind, Except.bind] at h
          exact ih _ _ _ _ _ _ h (Or.inr ⟨by rw [hro], t, hro.symm⟩) hdP
        · rw [if_pos hro] at h
          simp [bind, Except.bind] at h
      · cases hd with
        | none =>
          simp only [bodyRowsLoop, hk, if_false] at h
          exact ih _ _ _ _ _ _ h (Or.inl rfl) hdP
        | some hs =>
          simp only [bodyRowsLoop, hk, if_false] at h
          rcases hinv with hinv | hinv
          · exact absurd hinv (by simp)
          · obtain ⟨hhs, tl, htl⟩ := hinv
            have hhs2 : hs = ordered := by
              injection hhs
            subst hhs2
            refine ih _ _ _ _ _ _ h (Or.inr ⟨rfl, tl, htl⟩) ?_
            intro fd hfd
            rcases List.mem_append.mp hfd with hfd | hfd
            · exact hdP fd hfd
            · simp only [List.mem_singleton] at hfd
              subst hfd
              refine ⟨key, hk, ?_⟩
              unfold FileMeta.ofRow
              rw [htl]
              simp only [List.zip_cons_cons, insertAll]
              have hpre : ∀ p ∈ tl.zip t, p.1 ≠ HEADER_BODY_SWITCH := by
                intro p hp
                intro hps
                apply hdup
                rw [htl]
                simp only [List.drop_succ_cons, List.drop_zero]
                rw [← hps]
                exact (List.of_mem_zip hp).1
              have hzip : List.zipWith Prod.mk tl t = tl.zip t := rfl
              rw [hzip, insertAll_preserve hpre]
              simp [dictInsert, alookup]

theorem headerRowsLoop_empty_row (post : List (List String)) :
    ∀ (pre : List (List String)) (acc : List (String × String)),
    (∀ r ∈ pre, ∃ k t, r = k :: t ∧ k ≠ HEADER_BODY_SWITCH) →
    headerRowsLoop (pre ++ [] :: post) acc = .error .indexError := by
  intro pre
  induction pre with
  | nil => intro acc _; rfl
  | cons r rest ih =>
    intro acc hpre
    obtain ⟨k, t, hrt, hk⟩ := hpre r (List.mem_cons_self r rest)
    subst hrt
    simp only [List.cons_append, headerRowsLoop, hk, if_false]
    exact ih _ (fun q hq => hpre q (List.mem_cons_of_mem _ hq))

theorem bodyRowsLoop_empty_row (ordered : List String) (post : List (List String)) :
    ∀ (pre : List (List String)) (off : Nat) (hd : Option (List String))
      (d : List FileMeta),
    (∀ r ∈ pre, ∃ k t, r = k :: t ∧ (k = HEADER_BODY_SWITCH → k :: t = ordered)) →
    bodyRowsLoop ordered (pre ++ [] :: post) off hd d = .error .indexError := by
  intro pre
  induction pre with
  | nil => intro off hd d _; rfl
  | cons r rest ih =>
    intro off hd d hpre
    obtain ⟨k, t, hrt, hsw⟩ := hpre r (List.mem_cons_self r rest)
    subst hrt
    by_cases hk : k = HEADER_BODY_SWITCH
    · subst hk
      have hordered := hsw rfl
      simp only [List.cons_append, bodyRowsLoop, eq_self_iff_true, if_true,
        Body.heading_check]
      rw [if_neg (not_not_intro hordered)]
      simp only [bind, Except.bind]
      exact ih _ _ _ (fun q hq => hpre q (List.mem_cons_of_mem _ hq))
    · simp only [List.cons_append, bodyRowsLoop, hk, if_false]
      cases hd with
      | none => exact ih _ _ _ (fun q hq => hpre q (List.mem_cons_of_mem _ hq))
      | some hs => exact ih _ _ _ (fun q hq => hpre q (List.mem_cons_of_mem _ hq))

/-! ### Header validation shape lemmas -/

theorem fields_exist_ok {h : Header} {expected : List String} {h1 : Header}
    (hok : Header.fields_exist h expected = .ok h1) :
    h1 = { h with items := h.all_items.filter (fun p => decide (p.1 ∉ reservedKeys)) } := by
  unfold Header.fields_exist at hok
  by_cases hu : unexpectedOf h expected ≠ []
  · rw [if_pos hu] at hok
    exact absurd hok (by simp)
  · rw [if_neg hu] at hok
    by_cases hm : missingOf h expected ≠ []
    · rw [if_pos hm] at hok
      exact absurd hok (by simp)
    · rw [if_neg hm] at hok
      injection hok with h2
      exact h2.symm

theorem header_validate_shape {h : Header} {rules : HRules} {fresh : String} {h1 : Header}
    (hok : Header.validate h rules fresh = .ok h1) :
    ∃ v0,
      alookup (h.all_items.filter (fun p => decide (p.1 ∉ reservedKeys))) "Our Ref:"
        = some v0 ∧
      h1.items = (if v0 = "" then
          dictInsert (h.all_items.filter (fun p => decide (p.1 ∉ reservedKeys)))
            "Our Ref:" fresh
        else h.all_items.filter (fun p => decide (p.1 ∉ reservedKeys))) ∧
      h1.type = h.type ∧ h1.version = h.version ∧ h1.all_items = h.all_items := by
  unfold Header.validate at hok
  cases hfe : Header.fields_exist h rules.expected with
  | error e =>
    rw [hfe] at hok
    exact absurd hok (by simp [bind, Except.bind])
  | ok hx =>
    rw [hfe] at hok
    have hx2 := fields_exist_ok hfe
    subst hx2
    simp only [bind, Except.bind] at hok
    cases hfv : Header.fields_have_values
        (h.all_items.filter (fun p => decide (p.1 ∉ reservedKeys))) rules.required with
    | error e =>
      rw [hfv] at hok
      exact absurd hok (by simp)
    | ok u =>
      rw [hfv] at hok
      cases hvv : Header.field_values_valid
          (h.all_items.filter (fun p => decide (p.1 ∉ reservedKeys))) rules.validate with
      | error e =>
        rw [hvv] at hok
        exact absurd hok (by simp)
      | ok u2 =>
        rw [hvv] at hok
        cases hor : alookup
            (h.all_items.filter (fun p => decide (p.1 ∉ reservedKeys))) "Our Ref:" with
        | none =>
          simp only [getKey, hor] at hok
          exact absurd hok (by simp)
        | some v0 =>
          simp only [getKey, hor, pure, Except.pure] at hok
          by_cases hz : v0 = ""
          · rw [if_pos hz] at hok
            injection hok with hok
            refine ⟨v0, rfl, ?_, ?_, ?_, ?_⟩ <;> rw [← hok] <;> try simp [hz]
          · rw [if_neg hz] at hok
            injection hok with hok
            refine ⟨v0, rfl, ?_, ?_, ?_, ?_⟩ <;> rw [← hok] <;> try simp [hz]

/-! ### Claim theorems -/

/-- C4: for a header that passes all validation checks, 'Our Ref:' is the
only field mutated: it is assigned the fresh non-empty token exactly when
its parsed value was the empty string (an existing non-empty value is kept
verbatim), it is non-empty afterwards, and every other validated item, the
raw parsed items, the declared type and version are unchanged. -/
theorem header_validate_backfill (h : Header) (rules : HRules) (fresh : String)
    (h1 : Header) (hfresh : fresh ≠ "")
    (hok : Header.validate h rules fresh = .ok h1) :
    (∀ k, k ≠ "Our Ref:" →
      alookup h1.items k =
        alookup (h.all_items.filter (fun p => decide (p.1 ∉ reservedKeys))) k) ∧
    (∀ v, alookup (h.all_items.filter (fun p => decide (p.1 ∉ reservedKeys))) "Our Ref:"
        = some v →
      alookup h1.items "Our Ref:" = some (if v = "" then fresh else v)) ∧
    (∃ w, alookup h1.items "Our Ref:" = some w ∧ w ≠ "") ∧
    h1.type = h.type ∧ h1.version = h.version ∧ h1.all_items = h.all_items := by
  obtain ⟨v0, hv0, hitems, ht, hv, ha⟩ := header_validate_shape hok
  refine ⟨?_, ?_, ?_, ht, hv, ha⟩
  · intro k hk
    rw [hitems]
    by_cases hz : v0 = ""
    · rw [if_pos hz]
      exact alookup_dictInsert_ne _ fresh hk
    · rw [if_neg hz]
  · intro v hv2
    rw [hv0] at hv2
    injection hv2 with hv2
    subst hv2
    rw [hitems]
    by_cases hz : v0 = ""
    · rw [if_pos hz, if_pos hz]
      exact alookup_dictInsert_self _ _ _
    · rw [if_neg hz, if_neg hz]
      exact hv0
  · rw [hitems]
    by_cases hz : v0 = ""
    · exact ⟨fresh, by rw [if_pos hz]; exact alookup_dictInsert_self _ _ _, hfresh⟩
    · exact ⟨v0, by rw [if_neg hz]; exact hv0, hz⟩

/-- C4 witness: a concrete successful validation backfilling an empty
'Our Ref:' and leaving the other item untouched. -/
theorem header_validate_backfill_witness :
    ("tok" : String) ≠ "" ∧ Header.validate cH4 cHR4 "tok" = .ok cH4out ∧
      alookup cH4out.items "Extra" = some "x" ∧
      alookup cH4out.items "Our Ref:" = some "tok" := by
  have hok : Header.validate cH4 cHR4 "tok" = .ok cH4out := rfl
  have h := header_validate_backfill cH4 cHR4 "tok" cH4out (by decide) hok
  refine ⟨by decide, hok, ?_, ?_⟩
  · rw [h.1 "Extra" (by decide)]
    rfl
  · simpa using h.2.1 "" rfl

/-- C3 (corrected): when the parsed header preamble lacks 'Form type:'
(or has it but lacks 'Form version:'), Header construction fails with the
builtin KeyError naming the missing reserved key — a failure of neither
the ParsingError nor the ValidationError kind. -/
theorem header_init_missing_reserved (rows : List (List String))
    (parsed : List (String × String)) (hp : headerRowsLoop rows [] = .ok parsed) :
    (alookup parsed "Form type:" = none →
      Header.init rows = .error (.keyError "Form type:")) ∧
    (∀ tv, alookup parsed "Form type:" = some tv →
      alookup parsed "Form version:" = none →
      Header.init rows = .error (.keyError "Form version:")) ∧
    MErr.isParsing (.keyError "Form type:") = false ∧
    MErr.isValidation (.keyError "Form type:") = false ∧
    MErr.isParsing (.keyError "Form version:") = false ∧
    MErr.isValidation (.keyError "Form version:") = false := by
  refine ⟨?_, ?_, rfl, rfl, rfl, rfl⟩
  · intro hnone
    unfold Header.init
    simp [hp, bind, Except.bind, getKey, hnone]
  · intro tv hsome hnone
    unfold Header.init
    simp [hp, bind, Except.bind, getKey, hsome, hnone]

/-- C3 counterexample: a manifest header with neither reserved key fails
at construction with a KeyError, which is not a ParsingError. -/
theorem header_init_missing_reserved_cx :
    Header.init [["A", "1"]] = .error (.keyError "Form type:") ∧
      MErr.isParsing (.keyError "Form type:") = false :=
  ⟨rfl, rfl⟩

/-- C3 witness: a header that has 'Form type:' but lacks 'Form version:'
fails with a KeyError naming 'Form version:'. -/
theorem header_init_missing_reserved_witness :
    headerRowsLoop [["Form type:", "IMPORT"], ["B", "2"]] [] =
        .ok [("Form type:", "IMPORT"), ("B", "2")] ∧
      Header.init [["Form type:", "IMPORT"], ["B", "2"]] =
        .error (.keyError "Form version:") := by
  have h := header_init_missing_reserved [["Form type:", "IMPORT"], ["B", "2"]]
    [("Form type:", "IMPORT"), ("B", "2")] rfl
  exact ⟨rfl, h.2.1 "IMPORT" rfl rfl⟩

/-- C9: a fully empty line makes row[0] raise IndexError — before the
sentinel for Header parsing, anywhere for Body parsing (provided the rows
before it parse: they are non-empty, and any sentinel row among them
passes heading_check) — and IndexError is none of the documented
Config/Parsing/Validation kinds. -/
theorem empty_row_index_error (preH preB post1 post2 : List (List String))
    (rules : BRules)
    (hH : ∀ r ∈ preH, ∃ k t, r = k :: t ∧ k ≠ HEADER_BODY_SWITCH)
    (hB : ∀ r ∈ preB, ∃ k t, r = k :: t ∧
      (k = HEADER_BODY_SWITCH → k :: t = rules.ordered)) :
    Header.init (preH ++ [] :: post1) = .error .indexError ∧
    Body.init (preB ++ [] :: post2) rules = .error .indexError ∧
    MErr.isConfig .indexError = false ∧ MErr.isParsing .indexError = false ∧
    MErr.isValidation .indexError = false := by
  refine ⟨?_, ?_, rfl, rfl, rfl⟩
  · unfold Header.init
    rw [headerRowsLoop_empty_row post1 preH [] hH]
    rfl
  · unfold Body.init
    rw [bodyRowsLoop_empty_row rules.ordered post2 preB 1 none [] hB]
    rfl

/-- C9 witness: concrete manifests with an empty second line. -/
theorem empty_row_index_error_witness :
    Header.init [["A", "1"], []] = .error .indexError ∧
      Body.init [["A", "1"], []] cBR = .error .indexError := by
  have h := empty_row_index_error [["A", "1"]] [["A", "1"]] [] [] cBR
    (by
      intro r hr
      simp only [List.mem_singleton] at hr
      subst hr
      exact ⟨"A", ["1"], rfl, by decide⟩)
    (by
      intro r hr
      simp only [List.mem_singleton] at hr
      subst hr
      exact ⟨"A", ["1"], rfl, by intro hA; exact absurd hA (by decide)⟩)
  exact ⟨h.1, h.2.1⟩

/-- C10: convert_by_extn opens (creates or truncates) the output file
before the convertor lookup, so an extension with no conversion routine
fails with an attribute-lookup error only after the output already exists
with empty content; the failure is not a Config, Parsing or Validation
error kind. -/
theorem convert_by_extn_unknown (informat : String) (rows : List (List String))
    (fs : List (String × String)) (outfile : String)
    (h : getConvertor informat = none) :
    (Manifest.convert_by_extn informat rows fs outfile).2 =
        .error (.attrError ("_" ++ informat ++ "_to_tsv")) ∧
      alookup (Manifest.convert_by_extn informat rows fs outfile).1 outfile = some "" ∧
      MErr.isConfig (.attrError ("_" ++ informat ++ "_to_tsv")) = false ∧
      MErr.isParsing (.attrError ("_" ++ informat ++ "_to_tsv")) = false ∧
      MErr.isValidation (.attrError ("_" ++ informat ++ "_to_tsv")) = false := by
  unfold Manifest.convert_by_extn
  rw [h]
  exact ⟨rfl, alookup_dictInsert_self fs outfile "", rfl, rfl, rfl⟩

/-- C10 witness at the unknown extension docx. -/
theorem convert_by_extn_unknown_witness :
    (Manifest.convert_by_extn "docx" [["a"]] [] "out.tsv").2 =
        .error (.attrError ("_" ++ "docx" ++ "_to_tsv")) ∧
      alookup (Manifest.convert_by_extn "docx" [["a"]] [] "out.tsv").1 "out.tsv"
        = some "" := by
  have h := convert_by_extn_unknown "docx" [["a"]] [] "out.tsv" rfl
  exact ⟨h.1, h.2.1⟩

/-- C2 (code_bug): the load-time checks accept badCfg even though its
header.validate key Y is not in header.required, its header.required
entry X is not in header.expected, and its body section violates the
corresponding inclusions against body.ordered — no subset invariant is
enforced, contradicting the validate_json docstring and the spec. -/
theorem validate_json_no_subset_check :
    Header.validate_json "IMPORT" "1.0" badCfg = .ok () ∧
      Header.get_config_checks "IMPORT-1.0.json" "IMPORT" "1.0" badCfg = .ok badCfg ∧
      "Y" ∉ (["X"] : List String) ∧
      "X" ∉ (["Form type:", "Form version:"] : List String) ∧
      "Z" ∉ (["Files:"] : List String) ∧ "W" ∉ (["Z"] : List String) :=
  ⟨rfl, rfl, by decide, by decide, by decide, by decide⟩

/-- C8 (corrected): _csv_to_tsv emits exactly the rows whose tab-joined
rendering does not start with a tab, each as its joined line, in input
order; nothing else is dropped or altered and no error is raised. -/
theorem csv_to_tsv_filter (rows : List (List String)) :
    Manifest.csv_to_tsv rows =
      (rows.filter (fun r => !(startsTab (String.intercalate "\t" r)))).map
        (fun r => String.intercalate "\t" r) := by
  induction rows with
  | nil => rfl
  | cons row rest ih =>
    by_cases h : startsTab (String.intercalate "\t" row) = true
    · simp [Manifest.csv_to_tsv, h, List.filter_cons, ih]
    · simp only [Bool.not_eq_true] at h
      simp [Manifest.csv_to_tsv, h, List.filter_cons, ih]

/-- C8 counterexample: a blank csv row (an empty parsed row) renders with
an empty first column, yet _csv_to_tsv keeps it as an empty output line
instead of dropping it. -/
theorem csv_to_tsv_blank_kept :
    Manifest.csv_to_tsv [[]] = [""] ∧ firstRenderedColumn [] = "" ∧
      Manifest.csv_to_tsv [[]] ≠ [] :=
  ⟨rfl, rfl, by decide⟩

/-- C7 (corrected): the existence check aggregates every name within one
category — all unexpected fields when any exist, otherwise all missing
fields — but never combines the two categories, and the Rule Config
type/version check raises on the first mismatch (type before version)
without aggregating. -/
theorem fields_exist_aggregation (h : Header) (expected : List String)
    (cfg_file ht hv : String) (config : ConfigDoc) :
    (unexpectedOf h expected ≠ [] →
      Header.fields_exist h expected =
        .error (.validation (.unexpectedFields (unexpectedOf h expected)))) ∧
    (unexpectedOf h expected = [] → missingOf h expected ≠ [] →
      Header.fields_exist h expected =
        .error (.validation (.missingFields (missingOf h expected)))) ∧
    (∀ ct, config.type = some ct → ct ≠ ht →
      Header.get_config_checks cfg_file ht hv config =
        .error (.parsing (.typeMismatch cfg_file ct))) := by
  refine ⟨?_, ?_, ?_⟩
  · intro hu
    unfold Header.fields_exist
    rw [if_pos hu]
  · intro hu hm
    unfold Header.fields_exist
    rw [if_neg (fun hc => hc hu), if_pos hm]
  · intro ct hct hne
    unfold Header.get_config_checks
    simp [hct, bind, Except.bind, getOptKey, hne]

/-- C7 counterexample: with field A present-but-unexpected and field B
expected-but-missing, the raised error lists only A, not B; and a config
whose type and version both mismatch reports only the type. -/
theorem fields_exist_aggregation_cx :
    Header.fields_exist cxH ["B"] = .error (.validation (.unexpectedFields ["A"])) ∧
      ("B" ∉ (["A"] : List String)) ∧
      Header.get_config_checks "f.json" "IMPORT" "1.0" cxCfg =
        .error (.parsing (.typeMismatch "f.json" "OTHER")) ∧
      cxCfg.version = some "9.9" ∧ ("9.9" : String) ≠ "1.0" :=
  ⟨rfl, by decide, rfl, rfl, by decide⟩

/-- C7 witness: the aggregation theorem applied at concrete inputs. -/
theorem fields_exist_aggregation_witness :
    Header.fields_exist cwH [] = .error (.validation (.unexpectedFields ["C"])) ∧
      Header.get_config_checks "g.json" "Y" "1.0" cwCfg =
        .error (.parsing (.typeMismatch "g.json" "X")) := by
  have h := fields_exist_aggregation cwH [] "g.json" "Y" "1.0" cwCfg
  exact ⟨h.1 (by decide), h.2.2 "X" rfl (by decide)⟩

/-! ### uniq_files lemmas -/

theorem firstDup_append (a : List (String × String × Nat)) :
    ∀ (seen : List String) (b : List (String × String × Nat)),
    firstDup seen (a ++ b) =
      (match firstDup seen a with
       | some x => some x
       | none => firstDup (seen ++ a.map occVal) b) := by
  induction a with
  | nil =>
    intro seen b
    simp [firstDup]
  | cons x rest ih =>
    intro seen b
    by_cases hx : occVal x ∈ seen
    · simp [firstDup, hx]
    · simp only [List.cons_append, firstDup, hx, if_false, List.map_cons,
        List.append_eq]
      rw [ih (seen ++ [occVal x]) b]
      cases firstDup (seen ++ [occVal x]) rest <;> simp

theorem firstDup_eq_none_iff (occs : List (String × String × Nat)) :
    ∀ (seen : List String),
    firstDup seen occs = none ↔
      ((occs.map occVal).Nodup ∧ ∀ v ∈ occs.map occVal, v ∉ seen) := by
  induction occs with
  | nil =>
    intro seen
    simp [firstDup]
  | cons x rest ih =>
    intro seen
    by_cases hx : occVal x ∈ seen
    · simp only [firstDup, hx, if_true, List.map_cons, List.nodup_cons]
      constructor
      · intro hc
        exact absurd hc (by simp)
      · intro hc
        exact absurd hx (hc.2 (occVal x) (by simp))
    · simp only [firstDup, hx, if_false, List.map_cons, List.nodup_cons]
      rw [ih (seen ++ [occVal x])]
      constructor
      · rintro ⟨hnd, hmem⟩
        have hx2 : occVal x ∉ List.map occVal rest := by
          intro hc
          have := hmem (occVal x) hc
          simp at this
        refine ⟨⟨hx2, hnd⟩, ?_⟩
        intro v hv
        rcases List.mem_cons.mp hv with hv | hv
        · rw [hv]; exact hx
        · intro hc
          exact (hmem v hv) (List.mem_append_left _ hc)
      · rintro ⟨⟨hx2, hnd⟩, hmem⟩
        refine ⟨hnd, ?_⟩
        intro v hv hc
        rcases List.mem_append.mp hc with hc | hc
        · exact (hmem v (List.mem_cons_of_mem _ hv)) hc
        · simp only [List.mem_singleton] at hc
          rw [hc] at hv
          exact hx2 hv

theorem uniqInner_spec (fd : FileMeta) (cnt : Nat) :
    ∀ (ftys : List String) (seen : List String),
    (∀ fty ∈ ftys, (alookup fd.attributes fty).isSome) →
    Body.uniqInner fd cnt ftys seen =
      (match firstDup seen (rowOccsF fd cnt ftys) with
       | some x => .error (.validation (.duplicateFile x.1 x.2.1 x.2.2))
       | none => .ok (seen ++ (rowOccsF fd cnt ftys).map occVal)) := by
  intro ftys
  induction ftys with
  | nil =>
    intro seen _
    simp [Body.uniqInner, rowOccsF, firstDup]
  | cons fty rest ih =>
    intro seen hk
    obtain ⟨v, hv⟩ := Option.isSome_iff_exists.mp (hk fty (List.mem_cons_self _ _))
    have hkr : ∀ f ∈ rest, (alookup fd.attributes f).isSome :=
      fun f hf => hk f (List.mem_cons_of_mem _ hf)
    by_cases hdot : v = "."
    · have hL : Body.uniqInner fd cnt (fty :: rest) seen =
          Body.uniqInner fd cnt rest seen := by
        simp [Body.uniqInner, bind, Except.bind, getKey, hv, hdot]
      have hR : rowOccsF fd cnt (fty :: rest) = rowOccsF fd cnt rest := by
        simp [rowOccsF, presentFile, hv, hdot]
      rw [hL, hR, ih seen hkr]
    · have hocc : rowOccsF fd cnt (fty :: rest) =
          (fty, v, cnt) :: rowOccsF fd cnt rest := by
        simp [rowOccsF, presentFile, hv, hdot]
      rw [hocc]
      by_cases hseen : v ∈ seen
      · have hL : Body.uniqInner fd cnt (fty :: rest) seen =
            .error (.validation (.duplicateFile fty v cnt)) := by
          simp [Body.uniqInner, bind, Except.bind, getKey, hv, hdot, hseen]
        have hR : firstDup seen ((fty, v, cnt) :: rowOccsF fd cnt rest) =
            some (fty, v, cnt) := by
          simp [firstDup, occVal, hseen]
        rw [hL, hR]
      · have hL : Body.uniqInner fd cnt (fty :: rest) seen =
            Body.uniqInner fd cnt rest (seen ++ [v]) := by
          simp [Body.uniqInner, bind, Except.bind, getKey, hv, hdot, hseen]
        have hR : firstDup seen ((fty, v, cnt) :: rowOccsF fd cnt rest) =
            firstDup (seen ++ [v]) (rowOccsF fd cnt rest) := by
          simp [firstDup, occVal, hseen]
        rw [hL, hR, ih (seen ++ [v]) hkr]
        cases firstDup (seen ++ [v]) (rowOccsF fd cnt rest) <;>
          simp [occVal, List.append_assoc]

theorem uniqOuter_spec :
    ∀ (records : List FileMeta) (cnt : Nat) (seen : List String),
    (∀ fd ∈ records, ∀ fty ∈ fileTypes, (alookup fd.attributes fty).isSome) →
    Body.uniqOuter records cnt seen =
      (match firstDup seen (fileOccs records cnt) with
       | some x => .error (.validation (.duplicateFile x.1 x.2.1 x.2.2))
       | none => .ok ()) := by
  intro records
  induction records with
  | nil =>
    intro cnt seen _
    simp [Body.uniqOuter, fileOccs, firstDup]
  | cons fd rest ih =>
    intro cnt seen hk
    simp only [Body.uniqOuter, bind, Except.bind]
    rw [uniqInner_spec fd (cnt + 1) fileTypes seen (hk fd (List.mem_cons_self _ _))]
    simp only [fileOccs]
    rw [firstDup_append]
    cases hfd : firstDup seen (rowOccs fd (cnt + 1)) with
    | some x => simp [rowOccs] at hfd ⊢; simp [hfd]
    | none =>
      simp only [rowOccs] at hfd
      rw [hfd]
      exact ih (cnt + 1) (seen ++ (rowOccsF fd (cnt + 1) fileTypes).map occVal)
        (fun q hq => hk q (List.mem_cons_of_mem _ hq))

/-- C6: uniq_files succeeds exactly when the non-placeholder File/File_2
values are globally unique across the whole body (across rows and within
one row, in scan order), and the first collision is reported as a
duplicateFile ValidationError naming the column, the duplicated value and
the recorded 1-based source line of the second occurrence. -/
theorem uniq_files_spec (b : Body)
    (hkeys : ∀ fd ∈ b.file_detail, ∀ fty ∈ fileTypes,
      (alookup fd.attributes fty).isSome) :
    (Body.uniq_files b = .ok () ↔
      ((fileOccs b.file_detail b.offset).map occVal).Nodup) ∧
    (∀ fty v line,
      firstDup [] (fileOccs b.file_detail b.offset) = some (fty, v, line) →
      Body.uniq_files b = .error (.validation (.duplicateFile fty v line))) := by
  have hspec := uniqOuter_spec b.file_detail b.offset [] hkeys
  constructor
  · rw [Body.uniq_files, hspec]
    cases hfd : firstDup [] (fileOccs b.file_detail b.offset) with
    | some x =>
      constructor
      · intro hc
        exact absurd hc (by simp)
      · intro hnd
        have hnone := (firstDup_eq_none_iff (fileOccs b.file_detail b.offset) []).mpr
          ⟨hnd, by simp⟩
        rw [hfd] at hnone
        exact absurd hnone (by simp)
    | none =>
      have hnd := (firstDup_eq_none_iff (fileOccs b.file_detail b.offset) []).mp hfd
      simp [hnd.1]
  · intro fty v line hfd
    rw [Body.uniq_files, hspec, hfd]

/-- C6 witness: a record whose File and File_2 carry the same name is
rejected, citing File_2 and the record's source line. -/
theorem uniq_files_spec_witness :
    (∀ fd ∈ cB6.file_detail, ∀ fty ∈ fileTypes,
      (alookup fd.attributes fty).isSome) ∧
      Body.uniq_files cB6 = .error (.validation (.duplicateFile "File_2" "a.fq" 3)) := by
  have hk : ∀ fd ∈ cB6.file_detail, ∀ fty ∈ fileTypes,
      (alookup fd.attributes fty).isSome := by decide
  exact ⟨hk, (uniq_files_spec cB6 hk).2 "File_2" "a.fq" 3 rfl⟩

/-! ### file_ext_check lemmas -/

theorem extCheckRow_spec (rules : List (String × List String)) (fd : FileMeta)
    (cnt : Nat) (hk1 : (alookup fd.attributes "File").isSome)
    (hk2 : (alookup fd.attributes "File_2").isSome)
    (hr1 : (alookup rules "File").isSome) (hr2 : (alookup rules "File_2").isSome) :
    (Body.extCheckRow rules fd cnt fileTypes none = .ok () ↔ rowExtOK rules fd) ∧
    (∀ v1 v2, presentFile fd "File" = some v1 → presentFile fd "File_2" = some v2 →
      full_ext v1 ∈ (alookup rules "File").getD [] →
      full_ext v2 ∈ (alookup rules "File_2").getD [] →
      full_ext v1 ≠ full_ext v2 →
      Body.extCheckRow rules fd cnt fileTypes none =
        .error (.validation (.mismatchedFileExt (full_ext v1) (full_ext v2) cnt))) := by
  obtain ⟨a1, ha1⟩ := Option.isSome_iff_exists.mp hk1
  obtain ⟨a2, ha2⟩ := Option.isSome_iff_exists.mp hk2
  obtain ⟨l1, hl1⟩ := Option.isSome_iff_exists.mp hr1
  obtain ⟨l2, hl2⟩ := Option.isSome_iff_exists.mp hr2
  have hg1 : (alookup rules "File").getD [] = l1 := by rw [hl1]; rfl
  have hg2 : (alookup rules "File_2").getD [] = l2 := by rw [hl2]; rfl
  by_cases hd1 : a1 = "."
  · have e1 : presentFile fd "File" = none := by simp [presentFile, ha1, hd1]
    by_cases hd2 : a2 = "."
    · have e2 : presentFile fd "File_2" = none := by simp [presentFile, ha2, hd2]
      have hL : Body.extCheckRow rules fd cnt fileTypes none = .ok () := by
        simp [fileTypes, Body.extCheckRow, bind, Except.bind, getKey, ha1, ha2,
          hd1, hd2]
      refine ⟨by rw [hL]; simp [rowExtOK, e1, e2], ?_⟩
      intro v1 v2 hv1 hv2 _ _ _
      rw [e1] at hv1
      exact absurd hv1 (by simp)
    · have e2 : presentFile fd "File_2" = some a2 := by
        simp [presentFile, ha2, hd2]
      by_cases hm2 : full_ext a2 ∈ l2
      · have hL : Body.extCheckRow rules fd cnt fileTypes none = .ok () := by
          simp [fileTypes, Body.extCheckRow, bind, Except.bind, getKey, ha1, ha2,
            hl2, hd1, hd2, hm2]
        refine ⟨by rw [hL]; simp [rowExtOK, e1, e2, hg2, hm2], ?_⟩
        intro v1 v2 hv1 hv2 _ _ _
        rw [e1] at hv1
        exact absurd hv1 (by simp)
      · have hL : Body.extCheckRow rules fd cnt fileTypes none =
            .error (.validation (.invalidFileExt (full_ext a2) "File_2" cnt)) := by
          simp [fileTypes, Body.extCheckRow, bind, Except.bind, getKey, ha1, ha2,
            hl2, hd1, hd2, hm2]
        refine ⟨by rw [hL]; simp [rowExtOK, e1, e2, hg2, hm2], ?_⟩
        intro v1 v2 hv1 hv2 _ _ _
        rw [e1] at hv1
        exact absurd hv1 (by simp)
  · have e1 : presentFile fd "File" = some a1 := by simp [presentFile, ha1, hd1]
    by_cases hm1 : full_ext a1 ∈ l1
    · by_cases hd2 : a2 = "."
      · have e2 : presentFile fd "File_2" = none := by simp [presentFile, ha2, hd2]
        have hL : Body.extCheckRow rules fd cnt fileTypes none = .ok () := by
          simp [fileTypes, Body.extCheckRow, bind, Except.bind, getKey, ha1, ha2,
            hl1, hd1, hd2, hm1]
        refine ⟨by rw [hL]; simp [rowExtOK, e1, e2, hg1, hm1], ?_⟩
        intro v1 v2 hv1 hv2 _ _ _
        rw [e2] at hv2
        exact absurd hv2 (by simp)
      · have e2 : presentFile fd "File_2" = some a2 := by
          simp [presentFile, ha2, hd2]
        by_cases hm2 : full_ext a2 ∈ l2
        · by_cases heq : full_ext a1 = full_ext a2
          · have hL : Body.extCheckRow rules fd cnt fileTypes none = .ok () := by
              simp only [fileTypes, Body.extCheckRow, bind, Except.bind, getKey,
                ha1, ha2, hl1, hl2, hd1, hd2, if_false]
              simp [hm1, hm2]
              simp [heq]
            refine ⟨?_, ?_⟩
            · rw [hL]
              constructor
              · intro _
                refine ⟨?_, ?_, ?_⟩
                · intro v hv
                  rw [e1] at hv
                  injection hv with hv
                  subst hv
                  rw [hg1]
                  exact hm1
                · intro v hv
                  rw [e2] at hv
                  injection hv with hv
                  subst hv
                  rw [hg2]
                  exact hm2
                · intro v1 v2 hv1 hv2
                  rw [e1] at hv1
                  rw [e2] at hv2
                  injection hv1 with hv1
                  injection hv2 with hv2
                  subst hv1
                  subst hv2
                  exact heq
              · intro _
                rfl
            · intro v1 v2 hv1 hv2 _ _ hne
              rw [e1] at hv1
              rw [e2] at hv2
              injection hv1 with hv1
              injection hv2 with hv2
              subst hv1
              subst hv2
              exact absurd heq hne
          · have hL : Body.extCheckRow rules fd cnt fileTypes none =
                .error (.validation (.mismatchedFileExt (full_ext a1)
                  (full_ext a2) cnt)) := by
              simp [fileTypes, Body.extCheckRow, bind, Except.bind, getKey, ha1,
                ha2, hl1, hl2, hd1, hd2, hm1, hm2, heq]
            refine ⟨by rw [hL]; simp [rowExtOK, e1, e2, hg1, hg2, hm1, hm2, heq], ?_⟩
            intro v1 v2 hv1 hv2 _ _ _
            rw [e1] at hv1
            rw [e2] at hv2
            injection hv1 with hv1
            injection hv2 with hv2
            subst hv1
            subst hv2
            exact hL
        · have hL : Body.extCheckRow rules fd cnt fileTypes none =
              .error (.validation (.invalidFileExt (full_ext a2) "File_2" cnt)) := by
            simp [fileTypes, Body.extCheckRow, bind, Except.bind, getKey, ha1, ha2,
              hl1, hl2, hd1, hd2, hm1, hm2]
          refine ⟨by rw [hL]; simp [rowExtOK, e1, e2, hg1, hg2, hm1, hm2], ?_⟩
          intro v1 v2 hv1 hv2 _ hmem2 _
          rw [e2] at hv2
          injection hv2 with hv2
          subst hv2
          rw [hg2] at hmem2
          exact absurd hmem2 hm2
    · by_cases hd2 : a2 = "."
      · have hL : Body.extCheckRow rules fd cnt fileTypes none =
            .error (.validation (.invalidFileExt (full_ext a1) "File" cnt)) := by
          simp [fileTypes, Body.extCheckRow, bind, Except.bind, getKey, ha1, ha2,
            hl1, hd1, hd2, hm1]
        have e2 : presentFile fd "File_2" = none := by simp [presentFile, ha2, hd2]
        refine ⟨by rw [hL]; simp [rowExtOK, e1, e2, hg1, hm1], ?_⟩
        intro v1 v2 hv1 hv2 _ _ _
        rw [e2] at hv2
        exact absurd hv2 (by simp)
      · have hL : Body.extCheckRow rules fd cnt fileTypes none =
            .error (.validation (.invalidFileExt (full_ext a1) "File" cnt)) := by
          simp [fileTypes, Body.extCheckRow, bind, Except.bind, getKey, ha1, ha2,
            hl1, hd1, hd2, hm1]
        have e2 : presentFile fd "File_2" = some a2 := by
          simp [presentFile, ha2, hd2]
        refine ⟨by rw [hL]; simp [rowExtOK, e1, e2, hg1, hm1], ?_⟩
        intro v1 v2 hv1 hv2 hmem1 _ _
        rw [e1] at hv1
        injection hv1 with hv1
        subst hv1
        rw [hg1] at hmem1
        exact absurd hmem1 hm1

theorem file_ext_check_ok_iff (rules : List (String × List String))
    (hrules : (alookup rules "File").isSome ∧ (alookup rules "File_2").isSome) :
    ∀ (records : List FileMeta) (cnt : Nat),
    (∀ fd ∈ records, (alookup fd.attributes "File").isSome ∧
      (alookup fd.attributes "File_2").isSome) →
    (Body.file_ext_check rules records cnt = .ok () ↔
      ∀ fd ∈ records, rowExtOK rules fd) := by
  intro records
  induction records with
  | nil =>
    intro cnt _
    simp [Body.file_ext_check]
  | cons fd rest ih =>
    intro cnt hkeys
    have hrow := extCheckRow_spec rules fd (cnt + 1)
      (hkeys fd (List.mem_cons_self _ _)).1 (hkeys fd (List.mem_cons_self _ _)).2
      hrules.1 hrules.2
    have hkr : ∀ q ∈ rest, (alookup q.attributes "File").isSome ∧
        (alookup q.attributes "File_2").isSome :=
      fun q hq => hkeys q (List.mem_cons_of_mem _ hq)
    simp only [Body.file_ext_check, bind, Except.bind]
    cases hrc : Body.extCheckRow rules fd (cnt + 1) fileTypes none with
    | error e =>
      have hnot : ¬ rowExtOK rules fd := by
        intro hro
        have hco := hrow.1.mpr hro
        rw [hrc] at hco
        exact absurd hco (by simp)
      constructor
      · intro hc
        exact absurd hc (by simp)
      · intro hall
        exact absurd (hall fd (List.mem_cons_self _ _)) hnot
    | ok u =>
      cases u
      have hok : rowExtOK rules fd := hrow.1.mp hrc
      rw [ih (cnt + 1) hkr]
      constructor
      · intro hall q hq
        rcases List.mem_cons.mp hq with hq | hq
        · rw [hq]; exact hok
        · exact hall q hq
      · intro hall q hq
        exact hall q (List.mem_cons_of_mem _ hq)

theorem file_ext_check_firstMismatch (rules : List (String × List String))
    (hrules : (alookup rules "File").isSome ∧ (alookup rules "File_2").isSome) :
    ∀ (pre : List FileMeta) (fd : FileMeta) (post : List FileMeta) (cnt : Nat),
    (∀ q ∈ pre ++ fd :: post, (alookup q.attributes "File").isSome ∧
      (alookup q.attributes "File_2").isSome) →
    (∀ fd2 ∈ pre, rowExtOK rules fd2) →
    ∀ v1 v2, presentFile fd "File" = some v1 → presentFile fd "File_2" = some v2 →
      full_ext v1 ∈ (alookup rules "File").getD [] →
      full_ext v2 ∈ (alookup rules "File_2").getD [] →
      full_ext v1 ≠ full_ext v2 →
      Body.file_ext_check rules (pre ++ fd :: post) cnt =
        .error (.validation (.mismatchedFileExt (full_ext v1) (full_ext v2)
          (cnt + pre.length + 1))) := by
  intro pre
  induction pre with
  | nil =>
    intro fd post cnt hkeys _ v1 v2 hv1 hv2 hmem1 hmem2 hne
    have hrow := extCheckRow_spec rules fd (cnt + 1)
      (hkeys fd (by simp)).1 (hkeys fd (by simp)).2 hrules.1 hrules.2
    have herr := hrow.2 v1 v2 hv1 hv2 hmem1 hmem2 hne
    simp only [List.nil_append, Body.file_ext_check, bind, Except.bind, herr]
    simp
  | cons q pre' ih =>
    intro fd post cnt hkeys hpre v1 v2 hv1 hv2 hmem1 hmem2 hne
    have hq : rowExtOK rules q := hpre q (List.mem_cons_self _ _)
    have hrowq := extCheckRow_spec rules q (cnt + 1)
      (hkeys q (by simp)).1 (hkeys q (by simp)).2 hrules.1 hrules.2
    have hqok : Body.extCheckRow rules q (cnt + 1) fileTypes none = .ok () :=
      hrowq.1.mpr hq
    simp only [List.cons_append, List.append_eq, Body.file_ext_check, bind,
      Except.bind, hqok]
    have ih2 := ih fd post (cnt + 1)
      (fun r hr => hkeys r (List.mem_cons_of_mem _ hr))
      (fun r hr => hpre r (List.mem_cons_of_mem _ hr))
      v1 v2 hv1 hv2 hmem1 hmem2 hne
    rw [ih2]
    have heq2 : cnt + 1 + pre'.length + 1 = cnt + (pre'.length + 1) + 1 := by omega
    rw [heq2]
    simp

/-- C5: file_ext_check succeeds exactly when every record obeys the
extension discipline — each present file's resolved extension (one
trailing .gz split off, the last extension of the remainder taken,
reassembled) lies in its column's validate_ext set, and a row with both
files present resolves both to the same extension; and when the first
offending row is a both-present row with individually permitted but
different extensions, the error is the mismatched-extension
ValidationError carrying that row's 1-based source line number. -/
theorem file_ext_check_spec (rules : List (String × List String))
    (records : List FileMeta) (cnt : Nat)
    (hkeys : ∀ fd ∈ records, (alookup fd.attributes "File").isSome ∧
      (alookup fd.attributes "File_2").isSome)
    (hrules : (alookup rules "File").isSome ∧ (alookup rules "File_2").isSome) :
    (Body.file_ext_check rules records cnt = .ok () ↔
      ∀ fd ∈ records, rowExtOK rules fd) ∧
    (∀ pre fd post, records = pre ++ fd :: post →
      (∀ fd2 ∈ pre, rowExtOK rules fd2) →
      ∀ v1 v2, presentFile fd "File" = some v1 → presentFile fd "File_2" = some v2 →
        full_ext v1 ∈ (alookup rules "File").getD [] →
        full_ext v2 ∈ (alookup rules "File_2").getD [] →
        full_ext v1 ≠ full_ext v2 →
        Body.file_ext_check rules records cnt =
          .error (.validation (.mismatchedFileExt (full_ext v1) (full_ext v2)
            (cnt + pre.length + 1)))) := by
  constructor
  · exact file_ext_check_ok_iff rules hrules records cnt hkeys
  · intro pre fd post hrec hpre
    subst hrec
    exact file_ext_check_firstMismatch rules hrules pre fd post cnt hkeys hpre

/-- C5 witness: the mismatched pair on the first record is rejected with
the mismatched-extension error at line cnt + 1. -/
theorem file_ext_check_spec_witness :
    Body.file_ext_check cR5 [cFD5] 2 =
      .error (.validation (.mismatchedFileExt ".bam" ".fq" 3)) := by
  have h := file_ext_check_spec cR5 [cFD5] 2
    (by decide) (by decide)
  have h2 := h.2 [] cFD5 [] rfl (by intro fd2 hf; exact absurd hf (by simp))
    "a.bam" "b.fq" rfl rfl (by decide) (by decide) (by decide)
  simpa using h2

/-! ### Round-trip lemmas -/

theorem header_init_shape {rows : List (List String)} {h : Header}
    (hok : Header.init rows = .ok h) :
    headerRowsLoop rows [] = .ok h.all_items ∧
      alookup h.all_items "Form type:" = some h.type ∧
      alookup h.all_items "Form version:" = some h.version ∧ h.items = [] := by
  unfold Header.init at hok
  cases hl : headerRowsLoop rows [] with
  | error e =>
    rw [hl] at hok
    exact absurd hok (by simp [bind, Except.bind])
  | ok items =>
    rw [hl] at hok
    simp only [bind, Except.bind] at hok
    cases ht : alookup items "Form type:" with
    | none =>
      simp only [getKey, ht] at hok
      exact absurd hok (by simp)
    | some t =>
      cases hv : alookup items "Form version:" with
      | none =>
        simp only [getKey, ht, hv] at hok
        exact absurd hok (by simp)
      | some v =>
        simp only [getKey, ht, hv, pure, Except.pure] at hok
        injection hok with hok
        rw [← hok]
        exact ⟨rfl, ht, hv, rfl⟩

theorem body_init_shape {rows : List (List String)} {brules : BRules} {b : Body}
    (hok : Body.init rows brules = .ok b) :
    bodyRowsLoop brules.ordered rows 1 none [] =
      .ok (b.offset, b.headings, b.file_detail) := by
  unfold Body.init at hok
  cases hl : bodyRowsLoop brules.ordered rows 1 none [] with
  | error e =>
    rw [hl] at hok
    exact absurd hok (by simp [bind, Except.bind])
  | ok r =>
    rw [hl] at hok
    simp only [bind, Except.bind, pure, Except.pure] at hok
    obtain ⟨o, hd, d⟩ := r
    injection hok with hok
    rw [← hok]

theorem manifest_write_shape {h1 : Header} {b : Body} {brules : BRules}
    {ourRef : String} {outRows : List (List String)} {js : JsonOut}
    (hok : Manifest.write h1 b brules = .ok (ourRef, outRows, js)) :
    ∃ rows2, Body.writeRows brules.ordered b.file_detail = .ok rows2 ∧
      alookup h1.items "Our Ref:" = some ourRef ∧
      outRows = (h1.items.map (fun p => [p.1, p.2]) ++
        [["Form type:", h1.type], ["Form version:", h1.version]]) ++
        (brules.ordered :: rows2) ∧
      js = { header := h1.items, body := b.file_detail.map FileMeta.attributes } := by
  unfold Manifest.write Body.write Header.write at hok
  simp only [bind, Except.bind] at hok
  cases hor : alookup h1.items "Our Ref:" with
  | none =>
    simp only [getKey, hor] at hok
    exact absurd hok (by simp)
  | some r =>
    simp only [getKey, hor] at hok
    cases hwr : Body.writeRows brules.ordered b.file_detail with
    | error e =>
      rw [hwr] at hok
      simp [pure, Except.pure] at hok
    | ok rows2 =>
      rw [hwr] at hok
      simp only [pure, Except.pure, Except.ok.injEq, Prod.mk.injEq] at hok
      obtain ⟨h1e, h2e, h3e⟩ := hok
      refine ⟨rows2, rfl, ?_, h2e.symm, h3e.symm⟩
      rw [h1e]

theorem forall2_right_mem {R : FileMeta → List String → Prop}
    {Q : List String → Prop} :
    ∀ {fds : List FileMeta} {rows2 : List (List String)},
    List.Forall₂ R fds rows2 → (∀ fd r, fd ∈ fds → R fd r → Q r) →
    ∀ r ∈ rows2, Q r := by
  intro fds rows2 hf
  induction hf with
  | nil =>
    intro _ r hr
    exact absurd hr (by simp)
  | @cons a bb as bs h1 h2 ih =>
    intro himp r hr
    rcases List.mem_cons.mp hr with hr | hr
    · subst hr
      exact himp a r (List.mem_cons_self _ _) h1
    · exact ih (fun fd rr hfd hR => himp fd rr (List.mem_cons_of_mem _ hfd) hR) r hr

theorem reload_records_eq (ordered : List String) :
    ∀ {fds : List FileMeta} {rows2 : List (List String)},
    List.Forall₂ (fun fd r => Body.rowFor fd ordered = .ok r) fds rows2 →
    rows2.map (fun r => ordered.map (alookup (FileMeta.ofRow ordered r).attributes)) =
      fds.map (fun fd => ordered.map (alookup fd.attributes)) := by
  intro fds rows2 hf
  induction hf with
  | nil => rfl
  | @cons a bb as bs h1 h2 ih =>
    simp only [List.map_cons]
    rw [ih]
    congr 1
    obtain ⟨hr, hsome⟩ := rowFor_ok h1
    subst hr
    apply List.map_congr_left
    intro c hc
    rw [ofRow_self_lookup ordered _ hc]
    have hs := hsome c hc
    cases hv : alookup a.attributes c with
    | none => exact absurd hs (by simp [hv])
    | some v => simp

/-- C1 (corrected round trip): for a manifest that passed header and body
validation and whose input contains the sentinel heading row (so
heading_check ran, forcing the ordered columns to start with the sentinel
token), with the sentinel occurring only as that leading column, writing
and re-loading the emitted rows reproduces the header items with the two
reserved entries appended, reproduces every body record's attribute
values in the config's ordered column order, and the json mirror carries
that same header mapping and ordered record list; moreover a second
header validation run over the written file, whenever it succeeds,
returns exactly the same items — in particular the identifier assigned by
the first run is preserved unchanged. -/
theorem manifest_roundtrip (rows : List (List String)) (hrules : HRules)
    (brules : BRules) (fresh fresh2 : String) (h h1 : Header) (b : Body)
    (ourRef : String) (outRows : List (List String)) (js : JsonOut)
    (hinit : Header.init rows = .ok h)
    (hval : Header.validate h hrules fresh = .ok h1)
    (hfresh : fresh ≠ "")
    (hbinit : Body.init rows brules = .ok b)
    (hsent : b.headings ≠ none)
    (hswdup : HEADER_BODY_SWITCH ∉ brules.ordered.drop 1)
    (hbval : Body.validate b brules = .ok ())
    (hwrite : Manifest.write h1 b brules = .ok (ourRef, outRows, js)) :
    Header.init outRows = .ok ⟨h.type, h.version,
      h1.items ++ [("Form type:", h.type), ("Form version:", h.version)], []⟩ ∧
    js.header = h1.items ∧
    js.body = b.file_detail.map FileMeta.attributes ∧
    (Body.init outRows brules).map
        (fun b2 => b2.file_detail.map
          (fun fd => brules.ordered.map (alookup fd.attributes))) =
      .ok (b.file_detail.map
        (fun fd => brules.ordered.map (alookup fd.attributes))) ∧
    (Header.validate ⟨h.type, h.version,
        h1.items ++ [("Form type:", h.type), ("Form version:", h.version)], []⟩
        hrules fresh2).map (fun hh => hh.items) =
      (Header.validate ⟨h.type, h.version,
        h1.items ++ [("Form type:", h.type), ("Form version:", h.version)], []⟩
        hrules fresh2).map (fun _ => h1.items) := by
  obtain ⟨hloop, htype, hvers, hitems0⟩ := header_init_shape hinit
  obtain ⟨v0, hv0, hitems, hT, hV, hA⟩ := header_validate_shape hval
  obtain ⟨rows2, hwr, horef, hout, hjs⟩ := manifest_write_shape hwrite
  rw [← hT, ← hV]
  have hinv := headerRowsLoop_inv rows [] h.all_items hloop
  have hndAll : (h.all_items.map Prod.fst).Nodup := hinv.1 (by simp)
  have hswAll : ∀ k ∈ h.all_items.map Prod.fst, k ≠ HEADER_BODY_SWITCH :=
    hinv.2 (by simp)
  have hfilNotRes : ∀ p ∈ h.all_items.filter (fun p => decide (p.1 ∉ reservedKeys)),
      p.1 ∉ reservedKeys := by
    intro p hp
    exact of_decide_eq_true (List.mem_filter.mp hp).2
  have hfilNodup : ((h.all_items.filter
      (fun p => decide (p.1 ∉ reservedKeys))).map Prod.fst).Nodup :=
    List.Nodup.sublist (List.Sublist.map _ (List.filter_sublist _)) hndAll
  have hORmem : "Our Ref:" ∈ (h.all_items.filter
      (fun p => decide (p.1 ∉ reservedKeys))).map Prod.fst := by
    by_contra hc
    rw [(alookup_eq_none _ _).mpr hc] at hv0
    exact absurd hv0 (by simp)
  have hItemsKeys : h1.items.map Prod.fst =
      (h.all_items.filter (fun p => decide (p.1 ∉ reservedKeys))).map Prod.fst := by
    rw [hitems]
    by_cases hz : v0 = ""
    · rw [if_pos hz, keys_dictInsert, if_pos hORmem]
    · rw [if_neg hz]
  have h1NotRes : ∀ p ∈ h1.items, p.1 ∉ reservedKeys := by
    intro p hp
    rw [hitems] at hp
    by_cases hz : v0 = ""
    · rw [if_pos hz] at hp
      rcases mem_dictInsert hp with hp | hp
      · exact hfilNotRes p hp
      · rw [hp]
        exact (by decide : ("Our Ref:" : String) ∉ reservedKeys)
    · rw [if_neg hz] at hp
      exact hfilNotRes p hp
  have h1NotSW : ∀ p ∈ h1.items, p.1 ≠ HEADER_BODY_SWITCH := by
    intro p hp
    rw [hitems] at hp
    by_cases hz : v0 = ""
    · rw [if_pos hz] at hp
      rcases mem_dictInsert hp with hp | hp
      · exact hswAll p.1 (List.mem_map.mpr
          ⟨p, List.mem_of_mem_filter hp, rfl⟩)
      · rw [hp]
        exact (by decide : ("Our Ref:" : String) ≠ HEADER_BODY_SWITCH)
    · rw [if_neg hz] at hp
      exact hswAll p.1 (List.mem_map.mpr ⟨p, List.mem_of_mem_filter hp, rfl⟩)
  have h1Nodup : (h1.items.map Prod.fst).Nodup := by
    rw [hItemsKeys]
    exact hfilNodup
  have h1filterSelf : h1.items.filter (fun p => decide (p.1 ∉ reservedKeys))
      = h1.items :=
    List.filter_eq_self.mpr (fun p hp => decide_eq_true (h1NotRes p hp))
  have hORval : ∃ w, alookup h1.items "Our Ref:" = some w ∧ w ≠ "" := by
    rw [hitems]
    by_cases hz : v0 = ""
    · rw [if_pos hz]
      exact ⟨fresh, alookup_dictInsert_self _ _ _, hfresh⟩
    · rw [if_neg hz]
      exact ⟨v0, hv0, hz⟩
  obtain ⟨w, hw, hwne⟩ := hORval
  have hbs := body_init_shape hbinit
  have hOrd : b.headings = some brules.ordered ∧
      ∃ tl, brules.ordered = HEADER_BODY_SWITCH :: tl := by
    rcases bodyRowsLoop_headings brules.ordered rows 1 none [] b.offset
        b.headings b.file_detail hbs with hh | hh
    · exact absurd hh hsent
    · exact hh
  obtain ⟨hbh, tl, htl⟩ := hOrd
  have hndPs : ((h1.items ++
      [("Form type:", h1.type), ("Form version:", h1.version)]).map Prod.fst).Nodup := by
    rw [List.map_append, List.nodup_append]
    refine ⟨h1Nodup,
      (by decide : (["Form type:", "Form version:"] : List String).Nodup), ?_⟩
    intro a ha hb
    obtain ⟨p, hp, hpk⟩ := List.mem_map.mp ha
    apply h1NotRes p hp
    simp only [List.map_cons, List.map_nil, List.mem_cons, List.mem_singleton] at hb
    rcases hb with hb | hb
    · rw [hpk, hb]
      decide
    · simp at hb
      rw [hpk, hb]
      decide
  have hswPs : ∀ p ∈ h1.items ++
      [("Form type:", h1.type), ("Form version:", h1.version)],
      p.1 ≠ HEADER_BODY_SWITCH := by
    intro p hp
    rcases List.mem_append.mp hp with hp | hp
    · exact h1NotSW p hp
    · simp only [List.mem_cons, List.mem_singleton] at hp
      rcases hp with hp | hp
      · rw [hp]
        exact (by decide : ("Form type:" : String) ≠ HEADER_BODY_SWITCH)
      · simp at hp
        rw [hp]
        exact (by decide : ("Form version:" : String) ≠ HEADER_BODY_SWITCH)
  have hmap : h1.items.map (fun p => [p.1, p.2]) ++
      [["Form type:", h1.type], ["Form version:", h1.version]] =
      (h1.items ++ [("Form type:", h1.type), ("Form version:", h1.version)]).map
        (fun p => [p.1, p.2]) := by
    rw [List.map_append]
    rfl
  have hftNone : alookup h1.items "Form type:" = none := by
    apply (alookup_eq_none _ _).mpr
    intro hc
    obtain ⟨p, hp, hpk⟩ := List.mem_map.mp hc
    apply h1NotRes p hp
    rw [hpk]
    decide
  have hfvNone : alookup h1.items "Form version:" = none := by
    apply (alookup_eq_none _ _).mpr
    intro hc
    obtain ⟨p, hp, hpk⟩ := List.mem_map.mp hc
    apply h1NotRes p hp
    rw [hpk]
    decide
  have hOutLoop : headerRowsLoop outRows [] =
      .ok (h1.items ++ [("Form type:", h1.type), ("Form version:", h1.version)]) := by
    rw [hout, hmap]
    rw [headerRowsLoop_pairs _ (brules.ordered :: rows2) [] (by simpa using hndPs)
      hswPs]
    rw [htl]
    simp [headerRowsLoop]
  have hgt : alookup (h1.items ++
      [("Form type:", h1.type), ("Form version:", h1.version)]) "Form type:" =
      some h1.type := by
    rw [alookup_append_of_none _ hftNone]
    simp [alookup]
  have hgv : alookup (h1.items ++
      [("Form type:", h1.type), ("Form version:", h1.version)]) "Form version:" =
      some h1.version := by
    rw [alookup_append_of_none _ hfvNone]
    simp [alookup]
  refine ⟨?_, by rw [hjs], by rw [hjs], ?_, ?_⟩
  · unfold Header.init
    simp only [bind, Except.bind, hOutLoop, getKey, hgt, hgv, pure, Except.pure]
  · have hF2 := writeRows_ok hwr
    have hAttrs := bodyRowsLoop_attrs brules.ordered hswdup rows 1 none []
      b.offset b.headings b.file_detail hbs (Or.inl rfl)
      (by intro fd hfd; exact absurd hfd (by simp))
    have hRowsHeads : ∀ r ∈ rows2, ∃ k t2, r = k :: t2 ∧
        k ≠ HEADER_BODY_SWITCH := by
      refine forall2_right_mem hF2 ?_
      intro fd r hfd hR
      obtain ⟨hr, hsome⟩ := rowFor_ok hR
      obtain ⟨c, hcne, hcl⟩ := hAttrs fd hfd
      subst hr
      rw [htl]
      simp only [List.map_cons]
      refine ⟨_, _, rfl, ?_⟩
      rw [hcl]
      simpa using hcne
    have hSkipPs : ∀ r ∈ (h1.items ++
        [("Form type:", h1.type), ("Form version:", h1.version)]).map
          (fun p => [p.1, p.2]),
        ∃ k t2, r = k :: t2 ∧ k ≠ HEADER_BODY_SWITCH := by
      intro r hr
      obtain ⟨p, hp, hpr⟩ := List.mem_map.mp hr
      exact ⟨p.1, [p.2], hpr.symm, hswPs p hp⟩
    have hBodyReload : Body.init outRows brules = .ok
        ⟨1 + (h1.items ++
            [("Form type:", h1.type), ("Form version:", h1.version)]).length,
          some brules.ordered, rows2.map (FileMeta.ofRow brules.ordered)⟩ := by
      unfold Body.init
      rw [hout, hmap]
      rw [bodyRowsLoop_skip brules.ordered _ (brules.ordered :: rows2) 1 [] hSkipPs]
      have hstep : bodyRowsLoop brules.ordered (brules.ordered :: rows2)
          (1 + ((h1.items ++ [("Form type:", h1.type),
            ("Form version:", h1.version)]).map (fun p => [p.1, p.2])).length)
          none [] =
          .ok (1 + (h1.items ++ [("Form type:", h1.type),
            ("Form version:", h1.version)]).length, some brules.ordered,
            rows2.map (FileMeta.ofRow brules.ordered)) := by
        rw [htl]
        simp only [bodyRowsLoop, eq_self_iff_true, if_true, Body.heading_check]
        rw [if_neg (not_not_intro rfl)]
        simp only [bind, Except.bind]
        rw [bodyRowsLoop_records (HEADER_BODY_SWITCH :: tl)
          (HEADER_BODY_SWITCH :: tl) rows2 _ [] hRowsHeads]
        simp [List.length_map]
      rw [hstep]
      simp [bind, Except.bind, pure, Except.pure]
    rw [hBodyReload]
    simp only [Except.map]
    rw [List.map_map]
    exact congrArg Except.ok (reload_records_eq brules.ordered hF2)
  · cases hres : Header.validate ⟨h1.type, h1.version,
        h1.items ++ [("Form type:", h1.type), ("Form version:", h1.version)], []⟩
        hrules fresh2 with
    | error e => simp [Except.map]
    | ok h2 =>
      simp only [Except.map]
      obtain ⟨v0', hv0', hitems', _, _, _⟩ := header_validate_shape hres
      have hfil2 : (h1.items ++
          [("Form type:", h1.type), ("Form version:", h1.version)]).filter
            (fun p => decide (p.1 ∉ reservedKeys)) = h1.items := by
        rw [List.filter_append, h1filterSelf]
        rw [show ([("Form type:", h1.type), ("Form version:", h1.version)].filter
          (fun p => decide (p.1 ∉ reservedKeys))) = [] from rfl]
        rw [List.append_nil]
      simp only [hfil2] at hv0' hitems'
      rw [hw] at hv0'
      injection hv0' with hveq
      subst hveq
      rw [if_neg hwne] at hitems'
      rw [hitems']

/-- C1 counterexample: a manifest with no sentinel row passes header and
body validation (the body is vacuously valid) and writes successfully,
but re-parsing the written rows yields a header whose items differ from
the originals — the body heading row Sample is swallowed as an extra
header item. -/
theorem manifest_roundtrip_cx :
    Header.init nsRows = .ok nsH0 ∧
      Header.validate nsH0 nsHR "uuid-0" = .ok nsH1 ∧
      Body.init nsRows nsBR = .ok nsB0 ∧
      Body.validate nsB0 nsBR = .ok () ∧
      Manifest.write nsH1 nsB0 nsBR = .ok ("ref-1", nsOut, nsJs) ∧
      Header.init nsOut = .ok nsReH ∧
      nsReH.all_items ≠
        nsH1.items ++ [("Form type:", "IMPORT"), ("Form version:", "1.0")] :=
  ⟨rfl, rfl, rfl, rfl, rfl, rfl, by decide⟩

/-- C1 witness: the round-trip theorem applied to a concrete one-record
manifest whose identifier is backfilled with u-1. -/
theorem manifest_roundtrip_witness :
    Header.init wOut = .ok ⟨"IMPORT", "1.0",
      [("Our Ref:", "u-1"), ("Form type:", "IMPORT"), ("Form version:", "1.0")],
      []⟩ ∧
      wJs.header = wH1.items ∧
      wJs.body = wB0.file_detail.map FileMeta.attributes ∧
      (Body.init wOut wBR).map
          (fun b2 => b2.file_detail.map
            (fun fd => wBR.ordered.map (alookup fd.attributes))) =
        .ok (wB0.file_detail.map
          (fun fd => wBR.ordered.map (alookup fd.attributes))) ∧
      (Header.validate ⟨"IMPORT", "1.0",
          [("Our Ref:", "u-1"), ("Form type:", "IMPORT"),
            ("Form version:", "1.0")], []⟩ wHR "u-2").map (fun hh => hh.items) =
        (Header.validate ⟨"IMPORT", "1.0",
          [("Our Ref:", "u-1"), ("Form type:", "IMPORT"),
            ("Form version:", "1.0")], []⟩ wHR "u-2").map
          (fun _ => wH1.items) := by
  have h := manifest_roundtrip wRows wHR wBR "u-1" "u-2" wH0 wH1 wB0 "u-1" wOut
    wJs rfl rfl (by decide) rfl (by decide) (by decide) rfl rfl
  exact h

end CgpSeqVal
